import Mathlib

/-!
Shallow embedding of the structural-schema rewrite engine of
`kube-core/src/schema.rs` (plus its sibling transform modules
`schema/transforms.rs`, `schema/transform_properties.rs`,
`schema/transform_optional_enum_with_null.rs`).

The Rust data model (`Schema`, `SchemaObject`, `SubschemaValidation`,
`ArrayValidation`, `ObjectValidation`, `Metadata`, `InstanceType`,
`SingleOrVec`) is embedded as a mutual inductive family.  `BTreeMap`s are
embedded as key-sorted association lists, `BTreeSet<String>` as a sorted
`List String`, `serde_json::Value` as the inductive `JsonValue` (numbers as
`Int`; no claim depends on float semantics).  Rust `panic!`/`assert!` become
`Except.error`, so every fallible pass returns `Except String _`.

To keep every function structurally recursive (hence computable by `decide`
and `rfl`), optional/list positions that mention the recursive family use
dedicated family members (`OptSchema`, `SchemaList`, `PropMap`, ...) instead
of `Option`/`List`.  Accessors convert these to ordinary `Option` values.
-/

deriving instance DecidableEq for Except

namespace KubeSchema

/-! ## JSON values (serde_json::Value) -/

mutual
/-- A JSON value, mirroring `serde_json::Value`.  Objects are key-sorted
maps (serde_json's default `Map` is a `BTreeMap`). -/
inductive JsonValue where
  | null
  | bool (b : Bool)
  | num (n : Int)
  | str (s : String)
  | arr (elems : JsonList)
  | obj (entries : JsonMap)
  deriving DecidableEq
/-- A list of JSON values. -/
inductive JsonList where
  | nil
  | cons (v : JsonValue) (rest : JsonList)
  deriving DecidableEq
/-- An association map from keys to JSON values. -/
inductive JsonMap where
  | nil
  | cons (k : String) (v : JsonValue) (rest : JsonMap)
  deriving DecidableEq
end

/-- Convert a Lean list of JSON values to a `JsonList`. -/
def JsonList.ofList : List JsonValue → JsonList
  | [] => .nil
  | v :: rest => .cons v (JsonList.ofList rest)

/-- Lexicographic order on character lists (by code point). -/
def charListLt : List Char → List Char → Bool
  | [], [] => false
  | [], _ :: _ => true
  | _ :: _, [] => false
  | a :: as, b :: bs =>
    if a.val.toNat < b.val.toNat then true
    else if b.val.toNat < a.val.toNat then false
    else charListLt as bs

/-- Lexicographic order on strings, the key order of a `BTreeMap<String, _>`
(byte order and code-point order agree on the ASCII keyword names used here). -/
def strLt (a b : String) : Bool := charListLt a.data b.data

/-- Insert (or overwrite) a key in a key-sorted JSON map, mirroring
`serde_json::Map::insert` on the default `BTreeMap` backend. -/
def JsonMap.insert : JsonMap → String → JsonValue → JsonMap
  | .nil, k, v => .cons k v .nil
  | .cons k₀ v₀ rest, k, v =>
    if strLt k k₀ then .cons k v (.cons k₀ v₀ rest)
    else if k = k₀ then .cons k v rest
    else .cons k₀ v₀ (JsonMap.insert rest k v)

/-- Build a JSON map by inserting entries left to right (later duplicate keys
overwrite earlier ones, as when serde serializes flattened fields). -/
def JsonMap.ofEntries (entries : List (String × JsonValue)) : JsonMap :=
  entries.foldl (fun m kv => m.insert kv.1 kv.2) .nil

/-- Look up a key in an association list of JSON entries (first match wins),
mirroring `BTreeMap::get`. -/
def lookupEntry : List (String × JsonValue) → String → Option JsonValue
  | [], _ => none
  | (k, v) :: rest, key => if k = key then some v else lookupEntry rest key

/-- Insert (or overwrite) a key in a key-sorted entry list, mirroring
`BTreeMap::insert` / `value[key] = v` on a JSON object. -/
def insertEntry : List (String × JsonValue) → String → JsonValue → List (String × JsonValue)
  | [], key, v => [(key, v)]
  | (k₀, v₀) :: rest, key, v =>
    if strLt key k₀ then (key, v) :: (k₀, v₀) :: rest
    else if key = k₀ then (key, v) :: rest
    else (k₀, v₀) :: insertEntry rest key v

/-! ## The schema data model -/

/-- The possible `type` values of a JSON-Schema node (`InstanceType`). -/
inductive InstanceType where
  | null | boolean | object | array | number | string | integer
  deriving DecidableEq

/-- A value serialized either as a single item or as a list of items; the two
wire shapes are distinct even for one-element lists (`SingleOrVec`). -/
inductive SingleOrVec (α : Type) where
  | single (item : α)
  | vec (items : List α)
  deriving DecidableEq

/-- Schema metadata: the `description` and `default` keywords (`Metadata`).
`default = some .null` (an explicit JSON `null`) is distinct from `none`
(absent), mirroring the `allow_null` deserializer. -/
structure Metadata where
  description : Option String
  default : Option JsonValue
  deriving DecidableEq

instance : Inhabited Metadata := ⟨⟨none, none⟩⟩

mutual
/-- A JSON Schema: a trivial boolean schema or a schema object (`Schema`). -/
inductive Schema where
  | bool (b : Bool)
  | obj (o : SchemaObject)
  deriving DecidableEq
/-- A JSON Schema object (`SchemaObject`).  Field order matches the Rust
struct (also its serialization order): metadata, type, format, enum,
subschemas, array, object, extensions, other. -/
inductive SchemaObject where
  | mk (metadata : Option Metadata)
       (instanceType : Option (SingleOrVec InstanceType))
       (format : Option String)
       (enumValues : Option (List JsonValue))
       (subschemas : OptSubschemas)
       (array : OptArrayValidation)
       (object : OptObjectValidation)
       (extensions : List (String × JsonValue))
       (other : List (String × JsonValue))
  deriving DecidableEq
/-- Optional subschema validation (`Option<Box<SubschemaValidation>>`). -/
inductive OptSubschemas where
  | none
  | some (v : SubschemaValidation)
  deriving DecidableEq
/-- The `anyOf` and `oneOf` keywords (`SubschemaValidation`). -/
inductive SubschemaValidation where
  | mk (anyOf : OptSchemaList) (oneOf : OptSchemaList)
  deriving DecidableEq
/-- An optional list of schemas (`Option<Vec<Schema>>`). -/
inductive OptSchemaList where
  | none
  | some (l : SchemaList)
  deriving DecidableEq
/-- A list of schemas (`Vec<Schema>`). -/
inductive SchemaList where
  | nil
  | cons (s : Schema) (rest : SchemaList)
  deriving DecidableEq
/-- Optional array validation (`Option<Box<ArrayValidation>>`). -/
inductive OptArrayValidation where
  | none
  | some (v : ArrayValidation)
  deriving DecidableEq
/-- Array validation keywords (`ArrayValidation`). -/
inductive ArrayValidation where
  | mk (items : OptItems)
       (additionalItems : OptSchema)
       (maxItems : Option Nat)
       (minItems : Option Nat)
       (uniqueItems : Option Bool)
       (contains : OptSchema)
  deriving DecidableEq
/-- The optional `items` keyword (`Option<SingleOrVec<Schema>>`). -/
inductive OptItems where
  | none
  | single (s : Schema)
  | vec (l : SchemaList)
  deriving DecidableEq
/-- An optional schema (`Option<Box<Schema>>`). -/
inductive OptSchema where
  | none
  | some (s : Schema)
  deriving DecidableEq
/-- Optional object validation (`Option<Box<ObjectValidation>>`). -/
inductive OptObjectValidation where
  | none
  | some (v : ObjectValidation)
  deriving DecidableEq
/-- Object validation keywords (`ObjectValidation`). -/
inductive ObjectValidation where
  | mk (maxProperties : Option Nat)
       (minProperties : Option Nat)
       (required : List String)
       (properties : PropMap)
       (patternProperties : PropMap)
       (additionalProperties : OptSchema)
       (propertyNames : OptSchema)
  deriving DecidableEq
/-- A key-sorted map from property names to schemas (`BTreeMap<String, Schema>`). -/
inductive PropMap where
  | nil
  | cons (k : String) (s : Schema) (rest : PropMap)
  deriving DecidableEq
end

/-! ### Accessors and helpers for the family types -/

/-- View an `OptSubschemas` as an `Option`. -/
def OptSubschemas.toOption : OptSubschemas → Option SubschemaValidation
  | .none => Option.none
  | .some v => Option.some v

/-- Build an `OptSubschemas` from an `Option`. -/
def OptSubschemas.ofOption : Option SubschemaValidation → OptSubschemas
  | Option.none => .none
  | Option.some v => .some v

/-- View an `OptSchemaList` as an `Option`. -/
def OptSchemaList.toOption : OptSchemaList → Option SchemaList
  | .none => Option.none
  | .some l => Option.some l

/-- View an `OptSchema` as an `Option`. -/
def OptSchema.toOption : OptSchema → Option Schema
  | .none => Option.none
  | .some s => Option.some s

/-- View an `OptArrayValidation` as an `Option`. -/
def OptArrayValidation.toOption : OptArrayValidation → Option ArrayValidation
  | .none => Option.none
  | .some v => Option.some v

/-- View an `OptObjectValidation` as an `Option`. -/
def OptObjectValidation.toOption : OptObjectValidation → Option ObjectValidation
  | .none => Option.none
  | .some v => Option.some v

/-- View a `SchemaList` as a Lean list. -/
def SchemaList.toList : SchemaList → List Schema
  | .nil => []
  | .cons s rest => s :: SchemaList.toList rest

/-- Whether a `SchemaList` is empty (`Vec::is_empty`). -/
def SchemaList.isNil : SchemaList → Bool
  | .nil => true
  | .cons _ _ => false

/-- Length of a `SchemaList` (`Vec::len`). -/
def SchemaList.length : SchemaList → Nat
  | .nil => 0
  | .cons _ rest => 1 + SchemaList.length rest

/-- View a `PropMap` as a Lean association list. -/
def PropMap.toList : PropMap → List (String × Schema)
  | .nil => []
  | .cons k s rest => (k, s) :: PropMap.toList rest

/-- Look up a property name (`BTreeMap::get`). -/
def PropMap.lookup : PropMap → String → Option Schema
  | .nil, _ => Option.none
  | .cons k s rest, key => if k = key then Option.some s else PropMap.lookup rest key

/-- Insert (or overwrite) a property in a key-sorted map (`BTreeMap::insert`). -/
def PropMap.insert : PropMap → String → Schema → PropMap
  | .nil, key, v => .cons key v .nil
  | .cons k₀ s₀ rest, key, v =>
    if strLt key k₀ then .cons key v (.cons k₀ s₀ rest)
    else if key = k₀ then .cons key v rest
    else .cons k₀ s₀ (PropMap.insert rest key v)

/-- Whether a `PropMap` is empty (`BTreeMap::is_empty`). -/
def PropMap.isNil : PropMap → Bool
  | .nil => true
  | .cons _ _ _ => false

/-- Number of properties (`BTreeMap::len`). -/
def PropMap.length : PropMap → Nat
  | .nil => 0
  | .cons _ _ rest => 1 + PropMap.length rest

/-- The default (all-absent) `ObjectValidation`, as produced by
`ObjectValidation::default()`. -/
def ObjectValidation.default : ObjectValidation :=
  .mk none none [] .nil .nil .none .none

/-- The `metadata` field of a `SchemaObject`. -/
def SchemaObject.metadata : SchemaObject → Option Metadata
  | .mk md _ _ _ _ _ _ _ _ => md

/-- The `instance_type` field of a `SchemaObject`. -/
def SchemaObject.instanceType : SchemaObject → Option (SingleOrVec InstanceType)
  | .mk _ it _ _ _ _ _ _ _ => it

/-- The `format` field of a `SchemaObject`. -/
def SchemaObject.format : SchemaObject → Option String
  | .mk _ _ fm _ _ _ _ _ _ => fm

/-- The `enum_values` field of a `SchemaObject`. -/
def SchemaObject.enumValues : SchemaObject → Option (List JsonValue)
  | .mk _ _ _ ev _ _ _ _ _ => ev

/-- The `subschemas` field of a `SchemaObject`, as an `Option`. -/
def SchemaObject.subschemas : SchemaObject → Option SubschemaValidation
  | .mk _ _ _ _ ss _ _ _ _ => ss.toOption

/-- The `array` field of a `SchemaObject`, as an `Option`. -/
def SchemaObject.array : SchemaObject → Option ArrayValidation
  | .mk _ _ _ _ _ arr _ _ _ => arr.toOption

/-- The `object` field of a `SchemaObject`, as an `Option`. -/
def SchemaObject.object : SchemaObject → Option ObjectValidation
  | .mk _ _ _ _ _ _ ov _ _ => ov.toOption

/-- The `extensions` field of a `SchemaObject`. -/
def SchemaObject.extensions : SchemaObject → List (String × JsonValue)
  | .mk _ _ _ _ _ _ _ ext _ => ext

/-- The `other` (catch-all) field of a `SchemaObject`. -/
def SchemaObject.other : SchemaObject → List (String × JsonValue)
  | .mk _ _ _ _ _ _ _ _ oth => oth

/-- The `any_of` field of a `SubschemaValidation`, as an `Option`. -/
def SubschemaValidation.anyOf : SubschemaValidation → Option SchemaList
  | .mk ao _ => ao.toOption

/-- The `one_of` field of a `SubschemaValidation`, as an `Option`. -/
def SubschemaValidation.oneOf : SubschemaValidation → Option SchemaList
  | .mk _ oo => oo.toOption

/-- The `properties` field of an `ObjectValidation`. -/
def ObjectValidation.properties : ObjectValidation → PropMap
  | .mk _ _ _ props _ _ _ => props

/-- The `required` field of an `ObjectValidation`. -/
def ObjectValidation.required : ObjectValidation → List String
  | .mk _ _ req _ _ _ _ => req

/-- The `additional_properties` field of an `ObjectValidation`, as an `Option`. -/
def ObjectValidation.additionalProperties : ObjectValidation → Option Schema
  | .mk _ _ _ _ _ ap _ => ap.toOption

/-- The `unique_items` field of an `ArrayValidation`. -/
def ArrayValidation.uniqueItems : ArrayValidation → Option Bool
  | .mk _ _ _ _ ui _ => ui

/-! ## Serialization to JSON

`serde_json::to_value` on the Rust model: fields are emitted in struct order
(flattened structs contribute their own fields in order), keys are renamed to
camelCase, `skip_serializing_if` drops absent/empty fields, and the collected
entries land in a `serde_json::Map` (a `BTreeMap`), where a later duplicate
key overwrites an earlier one (relevant for the `extensions`/`other`
catch-alls). -/

/-- Serialize an `InstanceType` (camelCase rename). -/
def encodeInstanceType : InstanceType → JsonValue
  | .null => .str "null"
  | .boolean => .str "boolean"
  | .object => .str "object"
  | .array => .str "array"
  | .number => .str "number"
  | .string => .str "string"
  | .integer => .str "integer"

/-- Serialize a `SingleOrVec<InstanceType>` (untagged: single item or list). -/
def encodeTypeValue : SingleOrVec InstanceType → JsonValue
  | .single t => encodeInstanceType t
  | .vec ts => .arr (JsonList.ofList (ts.map encodeInstanceType))

/-- Entries contributed by the flattened `Metadata`. -/
def metadataEntries : Option Metadata → List (String × JsonValue)
  | Option.none => []
  | Option.some m =>
    (match m.description with
     | Option.some d => [("description", .str d)]
     | Option.none => []) ++
    (match m.default with
     | Option.some v => [("default", v)]
     | Option.none => [])

/-- Entry contributed by the `type` field. -/
def typeEntries : Option (SingleOrVec InstanceType) → List (String × JsonValue)
  | Option.none => []
  | Option.some t => [("type", encodeTypeValue t)]

/-- Entry contributed by the `format` field. -/
def formatEntries : Option String → List (String × JsonValue)
  | Option.none => []
  | Option.some f => [("format", .str f)]

/-- Entry contributed by the `enum` field. -/
def enumEntries : Option (List JsonValue) → List (String × JsonValue)
  | Option.none => []
  | Option.some evs => [("enum", .arr (JsonList.ofList evs))]

/-- Entries contributed by `Option<u32>` numeric keywords. -/
def natEntries (key : String) : Option Nat → List (String × JsonValue)
  | Option.none => []
  | Option.some n => [(key, .num (Int.ofNat n))]

/-- Entries contributed by `Option<bool>` keywords. -/
def boolEntries (key : String) : Option Bool → List (String × JsonValue)
  | Option.none => []
  | Option.some b => [(key, .bool b)]

/-- Entry contributed by the `required` set (skipped when empty). -/
def requiredEntries : List String → List (String × JsonValue)
  | [] => []
  | names => [("required", .arr (JsonList.ofList (names.map JsonValue.str)))]

mutual
/-- Serialize a `Schema` (`serde_json::to_value`, untagged enum). -/
def encodeSchema : Schema → JsonValue
  | .bool b => .bool b
  | .obj o => .obj (JsonMap.ofEntries (encodeObjEntries o))

/-- The ordered key/value entries produced by serializing a `SchemaObject`. -/
def encodeObjEntries : SchemaObject → List (String × JsonValue)
  | .mk md it fm ev ss arr ov ext oth =>
    metadataEntries md ++ typeEntries it ++ formatEntries fm ++ enumEntries ev ++
    encodeSubschemasEntries ss ++ encodeArrayEntries arr ++ encodeObjectEntries ov ++
    ext ++ oth

/-- Entries contributed by the flattened `SubschemaValidation`
(field order: `any_of`, then `one_of`). -/
def encodeSubschemasEntries : OptSubschemas → List (String × JsonValue)
  | .none => []
  | .some (.mk ao oo) => encodeSchemaListEntries "anyOf" ao ++ encodeSchemaListEntries "oneOf" oo

/-- Entry contributed by an optional schema list keyword. -/
def encodeSchemaListEntries (key : String) : OptSchemaList → List (String × JsonValue)
  | .none => []
  | .some l => [(key, .arr (encodeSchemaList l))]

/-- Serialize a list of schemas. -/
def encodeSchemaList : SchemaList → JsonList
  | .nil => .nil
  | .cons s rest => .cons (encodeSchema s) (encodeSchemaList rest)

/-- Entry contributed by an optional single-schema keyword. -/
def encodeOptSchemaEntries (key : String) : OptSchema → List (String × JsonValue)
  | .none => []
  | .some s => [(key, encodeSchema s)]

/-- Entry contributed by the `items` keyword (untagged single-or-vec). -/
def encodeItemsEntries : OptItems → List (String × JsonValue)
  | .none => []
  | .single s => [("items", encodeSchema s)]
  | .vec l => [("items", .arr (encodeSchemaList l))]

/-- Entries contributed by the flattened `ArrayValidation` (field order:
`items`, `additional_items`, `max_items`, `min_items`, `unique_items`,
`contains`). -/
def encodeArrayEntries : OptArrayValidation → List (String × JsonValue)
  | .none => []
  | .some (.mk items addItems maxI minI uniq contains) =>
    encodeItemsEntries items ++ encodeOptSchemaEntries "additionalItems" addItems ++
    natEntries "maxItems" maxI ++ natEntries "minItems" minI ++
    boolEntries "uniqueItems" uniq ++ encodeOptSchemaEntries "contains" contains

/-- Entries contributed by the flattened `ObjectValidation` (field order:
`max_properties`, `min_properties`, `required`, `properties`,
`pattern_properties`, `additional_properties`, `property_names`). -/
def encodeObjectEntries : OptObjectValidation → List (String × JsonValue)
  | .none => []
  | .some (.mk maxP minP req props patProps addProps propNames) =>
    natEntries "maxProperties" maxP ++ natEntries "minProperties" minP ++
    requiredEntries req ++ encodePropMapEntries "properties" props ++
    encodePropMapEntries "patternProperties" patProps ++
    encodeOptSchemaEntries "additionalProperties" addProps ++
    encodeOptSchemaEntries "propertyNames" propNames

/-- Entry contributed by a property map keyword (skipped when empty). -/
def encodePropMapEntries (key : String) : PropMap → List (String × JsonValue)
  | .nil => []
  | .cons k s rest => [(key, .obj (JsonMap.insert (encodePropMap rest) k (encodeSchema s)))]

/-- Serialize a property map as a JSON object. -/
def encodePropMap : PropMap → JsonMap
  | .nil => .nil
  | .cons k s rest => JsonMap.insert (encodePropMap rest) k (encodeSchema s)
end

/-- The canonical nullable-optional marker `{"enum":[null],"nullable":true}`
(the `json!` literal `null` in `hoist_any_of_option_enum`). -/
def nullMarker : JsonValue :=
  .obj (.cons "enum" (.arr (.cons .null .nil)) (.cons "nullable" (.bool true) .nil))

/-! ### Field-update helpers (Rust's in-place mutations, functionally) -/

/-- Replace the `metadata` field. -/
def SchemaObject.setMetadata : SchemaObject → Option Metadata → SchemaObject
  | .mk _ it fm ev ss arr ov ext oth, md => .mk md it fm ev ss arr ov ext oth

/-- Replace the `instance_type` field. -/
def SchemaObject.setInstanceType : SchemaObject → Option (SingleOrVec InstanceType) → SchemaObject
  | .mk md _ fm ev ss arr ov ext oth, it => .mk md it fm ev ss arr ov ext oth

/-- Replace the `enum_values` field. -/
def SchemaObject.setEnumValues : SchemaObject → Option (List JsonValue) → SchemaObject
  | .mk md it fm _ ss arr ov ext oth, ev => .mk md it fm ev ss arr ov ext oth

/-- Replace the `subschemas` field. -/
def SchemaObject.setSubschemas : SchemaObject → Option SubschemaValidation → SchemaObject
  | .mk md it fm ev _ arr ov ext oth, ss => .mk md it fm ev (OptSubschemas.ofOption ss) arr ov ext oth

/-- Replace the `array` field. -/
def SchemaObject.setArray : SchemaObject → Option ArrayValidation → SchemaObject
  | .mk md it fm ev ss _ ov ext oth, arr =>
    .mk md it fm ev ss (match arr with | Option.none => .none | Option.some a => .some a) ov ext oth

/-- Replace the `object` field. -/
def SchemaObject.setObject : SchemaObject → Option ObjectValidation → SchemaObject
  | .mk md it fm ev ss arr _ ext oth, ov =>
    .mk md it fm ev ss arr (match ov with | Option.none => .none | Option.some v => .some v) ext oth

/-- Replace the `extensions` field. -/
def SchemaObject.setExtensions : SchemaObject → List (String × JsonValue) → SchemaObject
  | .mk md it fm ev ss arr ov _ oth, ext => .mk md it fm ev ss arr ov ext oth

/-- Replace the `other` field. -/
def SchemaObject.setOther : SchemaObject → List (String × JsonValue) → SchemaObject
  | .mk md it fm ev ss arr ov ext _, oth => .mk md it fm ev ss arr ov ext oth

/-- Replace the `any_of` field. -/
def SubschemaValidation.setAnyOf : SubschemaValidation → Option SchemaList → SubschemaValidation
  | .mk _ oo, ao => .mk (match ao with | Option.none => .none | Option.some l => .some l) oo

/-- Replace the `one_of` field. -/
def SubschemaValidation.setOneOf : SubschemaValidation → Option SchemaList → SubschemaValidation
  | .mk ao _, oo => .mk ao (match oo with | Option.none => .none | Option.some l => .some l)

/-- Replace the `properties` field. -/
def ObjectValidation.setProperties : ObjectValidation → PropMap → ObjectValidation
  | .mk maxP minP req _ patProps addProps propNames, props =>
    .mk maxP minP req props patProps addProps propNames

/-- Replace the `additional_properties` field. -/
def ObjectValidation.setAdditionalProperties : ObjectValidation → Option Schema → ObjectValidation
  | .mk maxP minP req props patProps _ propNames, ap =>
    .mk maxP minP req props patProps
      (match ap with | Option.none => .none | Option.some s => .some s) propNames

/-- Replace the `unique_items` field. -/
def ArrayValidation.setUniqueItems : ArrayValidation → Option Bool → ArrayValidation
  | .mk items addItems maxI minI _ contains, ui => .mk items addItems maxI minI ui contains

/-! ## Pass 1: `hoist_one_of_enum` (schema.rs lines 391-470)

Hoists a `oneOf` of enum/const variants into a root-level `type` + `enum`. -/

/-- The `type` of a `oneOf` variant; panics become errors (schema.rs 424-432). -/
def variantInstanceType : Schema → Except String (SingleOrVec InstanceType)
  | .obj o =>
    match o.instanceType with
    | Option.some t => .ok t
    | Option.none => .error "oneOf variants need to define a type!"
  | .bool _ => .error "oneOf variants can not be of type boolean"

/-- Check the remaining variants' types against the first one, in order,
mirroring the lazy consumption of `types.any(|t| t != hoisted_instance_type)`
(schema.rs 434-441). -/
def checkVariantTypes (hoistedType : SingleOrVec InstanceType) : SchemaList → Except String Unit
  | .nil => .ok ()
  | .cons v rest => do
    let t ← variantInstanceType v
    if t = hoistedType then checkVariantTypes hoistedType rest
    else .error "All oneOf variants must have the same type"

/-- The `enum` values (or single `const` value) of a `oneOf` variant
(schema.rs 447-459).  The `enum` check deliberately precedes the `const`
check, as in the source. -/
def variantEnumOrConst : Schema → Except String (List JsonValue)
  | .obj o =>
    match o.enumValues with
    | Option.some evs => .ok evs
    | Option.none =>
      match lookupEntry o.other "const" with
      | Option.some c => .ok [c]
      | Option.none => .error "oneOf variant did not provide enum or const"
  | .bool _ => .error "oneOf variants can not be of type boolean"

/-- Concatenate all variants' enum/const values in variant order. -/
def oneOfEnumConsts : SchemaList → Except String (List JsonValue)
  | .nil => .ok []
  | .cons v rest => do
    let evs ← variantEnumOrConst v
    let restEvs ← oneOfEnumConsts rest
    .ok (evs ++ restEvs)

/-- The `oneOf` → enum hoisting pass (`hoist_one_of_enum`). -/
def hoist_one_of_enum (incoming : SchemaObject) : Except String SchemaObject :=
  match incoming.subschemas with
  | Option.none => .ok incoming
  | Option.some ss =>
    match ss.oneOf with
    | Option.none => .ok incoming
    | Option.some oneOf =>
      match oneOf with
      | .nil => .ok incoming
      | .cons v rest => do
        let hoistedType ← variantInstanceType v
        checkVariantTypes hoistedType rest
        let newEnums ← oneOfEnumConsts (.cons v rest)
        .ok (((incoming.setInstanceType (Option.some hoistedType)).setEnumValues
               (Option.some (incoming.enumValues.getD [] ++ newEnums))).setSubschemas
               (Option.some (ss.setOneOf Option.none)))

/-! ## Pass 2: `hoist_any_of_option_enum` (schema.rs lines 475-540)

Hoists an `anyOf` pair where exactly one entry is the serialized null marker. -/

/-- Hoist the non-marker entry: its description/type/enum replace the root's,
`other["nullable"]` is set to `true`, and `any_of` is cleared
(schema.rs 518-539). -/
def hoist_any_of_option_enum_go (incoming : SchemaObject) (ss : SubschemaValidation) :
    Schema → Except String SchemaObject
  | .bool _ => .error "Somehow we have stumbled across a bool schema"
  | .obj toHoist =>
    let newMetadata : Metadata :=
      { incoming.metadata.getD default with
          description := toHoist.metadata.bind (fun m => m.description) }
    .ok (((((incoming.setMetadata (Option.some newMetadata)).setInstanceType
            toHoist.instanceType).setEnumValues toHoist.enumValues).setOther
            (insertEntry incoming.other "nullable" (.bool true))).setSubschemas
            (Option.some (ss.setAnyOf Option.none)))

/-- The node produced by a successful nullable-optional hoist (the `.ok`
payload of `hoist_any_of_option_enum_go` on an `Object` entry). -/
def hoisted_option_schema (incoming : SchemaObject) (ss : SubschemaValidation)
    (o : SchemaObject) : SchemaObject :=
  ((((incoming.setMetadata (Option.some
      { incoming.metadata.getD default with
          description := o.metadata.bind (fun m => m.description) })).setInstanceType
      o.instanceType).setEnumValues o.enumValues).setOther
      (insertEntry incoming.other "nullable" (.bool true))).setSubschemas
      (Option.some (ss.setAnyOf Option.none))

/-- The `anyOf` nullable-optional hoisting pass (`hoist_any_of_option_enum`). -/
def hoist_any_of_option_enum (incoming : SchemaObject) : Except String SchemaObject :=
  match incoming.subschemas with
  | Option.none => .ok incoming
  | Option.some ss =>
    match ss.anyOf with
    | Option.none => .ok incoming
    | Option.some anyOf =>
      match anyOf with
      | .cons a (.cons b .nil) =>
        if encodeSchema a = nullMarker then
          if encodeSchema b = nullMarker then
            .error "Too many nulls, not enough drinks"
          else hoist_any_of_option_enum_go incoming ss b
        else
          if encodeSchema b = nullMarker then
            hoist_any_of_option_enum_go incoming ss a
          else .ok incoming
      | _ => .ok incoming

/-! ## Pass 3: `hoist_subschema_properties` (schema.rs lines 643-707)

Moves all variant property definitions up to the root object validation. -/

/-- Merge a variant's `type` into the root `type` (`merge_metadata`,
schema.rs 717-734). -/
def merge_metadata (instanceType variantType : Option (SingleOrVec InstanceType)) :
    Except String (Option (SingleOrVec InstanceType)) :=
  match instanceType, variantType with
  | it, Option.none => .ok it
  | Option.none, Option.some vt => .ok (Option.some vt)
  | Option.some ct, Option.some vt =>
    if ct = vt then .ok (Option.some ct)
    else .error "variant defined type conflicting with existing type"

/-- Relocate a variant's description onto its single property's schema
(schema.rs 658-670); if the variant does not have exactly one property whose
schema is an `Object` (`only_item`, schema.rs 709-715), the taken description
is dropped. -/
def relocate_variant_description (metadata : Option Metadata) (variantObj : ObjectValidation) :
    Option Metadata × ObjectValidation :=
  match metadata with
  | Option.none => (Option.none, variantObj)
  | Option.some m =>
    match m.description with
    | Option.none => (Option.some m, variantObj)
    | Option.some desc =>
      let m' : Metadata := { m with description := Option.none }
      match variantObj.properties with
      | .cons k (.obj po) .nil =>
        (Option.some m',
         variantObj.setProperties (.cons k (.obj (po.setMetadata (Option.some
           { po.metadata.getD default with description := Option.some desc }))) .nil))
      | _ => (Option.some m', variantObj)

/-- Move a variant's properties into the common object validation; a same-name
property with a different schema is a hard error naming the property
(schema.rs 672-688). -/
def move_variant_properties : PropMap → ObjectValidation → Except String ObjectValidation
  | .nil, commonObj => .ok commonObj
  | .cons name property rest, commonObj =>
    match commonObj.properties.lookup name with
    | Option.none =>
      move_variant_properties rest (commonObj.setProperties (commonObj.properties.insert name property))
    | Option.some existing =>
      if property = existing then move_variant_properties rest commonObj
      else .error ("Property " ++ name ++
        " has a schema conflicting with its definition in another subschema")

/-- Process one variant of `hoist_subschema_properties` (schema.rs 648-706). -/
def hoist_properties_variant (v : Schema) (commonObj : Option ObjectValidation)
    (instanceType : Option (SingleOrVec InstanceType)) :
    Except String (Schema × Option ObjectValidation × Option (SingleOrVec InstanceType)) :=
  match v with
  | .obj o =>
    match o.object with
    | Option.some variantObj =>
      let co := commonObj.getD ObjectValidation.default
      let reloc := relocate_variant_description o.metadata variantObj
      let variantProps := reloc.2.properties
      do
        let co' ← move_variant_properties variantProps co
        let variantObj' := (reloc.2.setProperties .nil).setAdditionalProperties Option.none
        let it' ← merge_metadata instanceType o.instanceType
        .ok (.obj (((o.setMetadata reloc.1).setObject (Option.some variantObj')).setInstanceType
               Option.none),
             Option.some co', it')
    | Option.none =>
      if o.instanceType = Option.some (.single .object) then
        .ok (.obj ((o.setInstanceType Option.none).setMetadata Option.none),
             commonObj, instanceType)
      else .ok (v, commonObj, instanceType)
  | .bool _ => .ok (v, commonObj, instanceType)

/-- The property-hoisting pass used by the pipeline
(`hoist_subschema_properties`): a fold of `hoist_properties_variant` over the
variant list, threading the common object validation and root type. -/
def hoist_subschema_properties : SchemaList → Option ObjectValidation →
    Option (SingleOrVec InstanceType) →
    Except String (SchemaList × Option ObjectValidation × Option (SingleOrVec InstanceType))
  | .nil, co, it => .ok (.nil, co, it)
  | .cons v rest, co, it => do
    let (v', co', it') ← hoist_properties_variant v co it
    let (rest', co'', it'') ← hoist_subschema_properties rest co' it'
    .ok (.cons v' rest', co'', it'')

/-! ## Pass 4: `hoist_subschema_enum_values` (schema.rs lines 609-639)

Removes enum-bearing variants from a remaining `oneOf`, concatenating their
enum values into the root enum list and merging their types. -/

/-- The plain-enum hoisting pass (`hoist_subschema_enum_values`), mirroring
the `Vec::retain` with side effects on the root enum list and type. -/
def hoist_subschema_enum_values : SchemaList → Option (List JsonValue) →
    Option (SingleOrVec InstanceType) →
    Except String (SchemaList × Option (List JsonValue) × Option (SingleOrVec InstanceType))
  | .nil, ce, it => .ok (.nil, ce, it)
  | .cons v rest, ce, it =>
    match v with
    | .obj o =>
      match o.enumValues with
      | Option.some variantEnums => do
        let it' ←
          match o.instanceType with
          | Option.none => pure it
          | Option.some vt =>
            match it with
            | Option.none => pure (Option.some vt)
            | Option.some t =>
              if t = vt then pure it
              else Except.error "Enum variant type conflicts with the already defined instance type"
        hoist_subschema_enum_values rest (Option.some (ce.getD [] ++ variantEnums)) it'
      | Option.none => do
        let (rest', ce', it') ← hoist_subschema_enum_values rest ce it
        .ok (.cons v rest', ce', it')
    | .bool _ => do
      let (rest', ce', it') ← hoist_subschema_enum_values rest ce it
      .ok (.cons v rest', ce', it')

/-! ## The per-node pipeline (`StructuralSchemaRewriter::transform`,
schema.rs lines 543-603) -/

/-- Steps 3-4 of the per-node pipeline (schema.rs 556-573): if `one_of`
remains, hoist object properties and then plain enum values from it, clearing
it when it becomes empty; then hoist object properties from `any_of`. -/
def one_of_any_of_step (schema : SchemaObject) : Except String SchemaObject :=
  match schema.subschemas with
  | Option.none => .ok schema
  | Option.some ss => do
    let step₁ ←
      match ss.oneOf with
      | Option.none => pure (schema, ss)
      | Option.some oneOf => do
        let (oneOf₁, co₁, it₁) ← hoist_subschema_properties oneOf schema.object schema.instanceType
        let (oneOf₂, ev₂, it₂) ← hoist_subschema_enum_values oneOf₁ schema.enumValues it₁
        pure ((((schema.setObject co₁).setInstanceType it₂).setEnumValues ev₂),
              ss.setOneOf (if oneOf₂.isNil then Option.none else Option.some oneOf₂))
    let step₂ ←
      match step₁.2.anyOf with
      | Option.none => pure step₁
      | Option.some anyOf => do
        let (anyOf', co', it') ← hoist_subschema_properties anyOf step₁.1.object step₁.1.instanceType
        pure (((step₁.1.setObject co').setInstanceType it'),
              step₁.2.setAnyOf (Option.some anyOf'))
    .ok (step₂.1.setSubschemas (Option.some step₂.2))

/-- Step 5 of the per-node pipeline (schema.rs 575-586): an object with
non-empty `properties` and `additionalProperties == true` loses
`additionalProperties` and gains the preserve-unknown-fields extension. -/
def map_shape_fixup (schema : SchemaObject) : SchemaObject :=
  match schema.object with
  | Option.none => schema
  | Option.some object =>
    if object.properties.isNil = false ∧ object.additionalProperties = Option.some (.bool true) then
      (schema.setObject (Option.some (object.setAdditionalProperties Option.none))).setExtensions
        (insertEntry schema.extensions "x-kubernetes-preserve-unknown-fields" (.bool true))
    else schema

/-- Step 6 of the per-node pipeline (schema.rs 593-595): `unique_items` is
always cleared. -/
def unique_items_fixup (schema : SchemaObject) : SchemaObject :=
  match schema.array with
  | Option.none => schema
  | Option.some array => schema.setArray (Option.some (array.setUniqueItems Option.none))

/-- The per-node rewrite pipeline: the body of
`StructuralSchemaRewriter::transform` after the recursion into subschemas
(schema.rs 548-596).  A Rust panic in any pass aborts the whole run. -/
def transform_node (schema : SchemaObject) : Except String SchemaObject := do
  let schema₁ ← hoist_one_of_enum schema
  let schema₂ ← hoist_any_of_option_enum schema₁
  let schema₃ ← one_of_any_of_step schema₂
  .ok (unique_items_fixup (map_shape_fixup schema₃))

/-! ## The full recursive pipeline

`transform` first recurses into every child-schema slot
(`transform_subschemas`) and then applies the per-node pipeline, i.e. a
strict post-order walk. -/

mutual
/-- The full rewrite pipeline on a schema tree (post-order). -/
def transform_schema : Schema → Except String Schema
  | .bool b => .ok (.bool b)
  | .obj o => do
    let o' ← transform_children o
    let o'' ← transform_node o'
    .ok (.obj o'')

/-- Recurse into every child-schema slot of a node. -/
def transform_children : SchemaObject → Except String SchemaObject
  | .mk md it fm ev ss arr ov ext oth => do
    let ss' ← transform_subschemas_slot ss
    let arr' ← transform_array_slot arr
    let ov' ← transform_object_slot ov
    .ok (.mk md it fm ev ss' arr' ov' ext oth)

/-- Recurse into `any_of`/`one_of`. -/
def transform_subschemas_slot : OptSubschemas → Except String OptSubschemas
  | .none => .ok .none
  | .some (.mk ao oo) => do
    let ao' ← transform_opt_list ao
    let oo' ← transform_opt_list oo
    .ok (.some (.mk ao' oo'))

/-- Recurse into an optional schema list. -/
def transform_opt_list : OptSchemaList → Except String OptSchemaList
  | .none => .ok .none
  | .some l => do
    let l' ← transform_list l
    .ok (.some l')

/-- Recurse into each schema of a list. -/
def transform_list : SchemaList → Except String SchemaList
  | .nil => .ok .nil
  | .cons s rest => do
    let s' ← transform_schema s
    let rest' ← transform_list rest
    .ok (.cons s' rest')

/-- Recurse into an optional schema. -/
def transform_opt : OptSchema → Except String OptSchema
  | .none => .ok .none
  | .some s => do
    let s' ← transform_schema s
    .ok (.some s')

/-- Recurse into the `items` slot. -/
def transform_items : OptItems → Except String OptItems
  | .none => .ok .none
  | .single s => do
    let s' ← transform_schema s
    .ok (.single s')
  | .vec l => do
    let l' ← transform_list l
    .ok (.vec l')

/-- Recurse into the array validation slots. -/
def transform_array_slot : OptArrayValidation → Except String OptArrayValidation
  | .none => .ok .none
  | .some (.mk items addItems maxI minI uniq contains) => do
    let items' ← transform_items items
    let addItems' ← transform_opt addItems
    let contains' ← transform_opt contains
    .ok (.some (.mk items' addItems' maxI minI uniq contains'))

/-- Recurse into the object validation slots. -/
def transform_object_slot : OptObjectValidation → Except String OptObjectValidation
  | .none => .ok .none
  | .some (.mk maxP minP req props patProps addProps propNames) => do
    let props' ← transform_props props
    let patProps' ← transform_props patProps
    let addProps' ← transform_opt addProps
    let propNames' ← transform_opt propNames
    .ok (.some (.mk maxP minP req props' patProps' addProps' propNames'))

/-- Recurse into each property value. -/
def transform_props : PropMap → Except String PropMap
  | .nil => .ok .nil
  | .cons k s rest => do
    let s' ← transform_schema s
    let rest' ← transform_props rest
    .ok (.cons k s' rest')
end

/-! ## `hoist_properties_for_any_of_subschemas`
(transform_properties.rs lines 354-478) -/

/-- Whether any entry of the list serializes to the null marker
(transform_properties.rs 380-397). -/
def contains_null_marker : SchemaList → Bool
  | .nil => false
  | .cons v rest => decide (encodeSchema v = nullMarker) || contains_null_marker rest

/-- Eager bool-variant check (the `collect::<Vec<_>>` of
transform_properties.rs 402-408 panics on any `Schema::Bool`). -/
def check_variants_not_bool : SchemaList → Except String Unit
  | .nil => .ok ()
  | .cons (.bool _) _ => .error "oneOf and anyOf variants cannot be of type boolean"
  | .cons (.obj _) rest => check_variants_not_bool rest

/-- The `pop_first` hoisting loop (transform_properties.rs 451-475).  Note
that popping a `Schema::Bool` property ends the `while let` loop: the popped
entry is dropped and the remaining properties stay on the variant. -/
def pop_hoist_properties : PropMap → Option ObjectValidation →
    Except String (PropMap × Option ObjectValidation)
  | .nil, parent => .ok (.nil, parent)
  | .cons _ (.bool _) rest, parent => .ok (rest, parent)
  | .cons name (.obj pso) rest, parent =>
    let pv := parent.getD ObjectValidation.default
    match pv.properties.lookup name with
    | Option.some existing =>
      if existing = .obj pso then pop_hoist_properties rest (Option.some pv)
      else .error ("Properties for " ++ name ++ " are defined multiple times with different shapes")
    | Option.none =>
      pop_hoist_properties rest
        (Option.some (pv.setProperties (pv.properties.insert name (.obj pso))))

/-- The tagged-case block of `hoist_properties_for_any_of_subschemas`
(transform_properties.rs 422-444): assert exactly one property, assert its
metadata is empty, and relocate the taken variant metadata onto it. -/
def tagged_variant_relocate (preserveDescription : Bool) (metadata : Option Metadata)
    (object₁ : ObjectValidation) : Except String ObjectValidation :=
  if preserveDescription then
    if object₁.properties.length = 1 then
      match object₁.properties with
      | .cons k (.obj sub) .nil =>
        if sub.metadata.isSome then
          Except.error "subschema metadata for property should be empty"
        else pure (object₁.setProperties (.cons k (.obj (sub.setMetadata metadata)) .nil))
      | _ => pure object₁
    else
      Except.error "Expecting only a single property defined for the tagged enum variant schema"
  else pure object₁

/-- Process one variant of `hoist_properties_for_any_of_subschemas`
(transform_properties.rs 410-477): take the variant's metadata and type; in
the tagged case assert exactly one property and relocate the metadata onto
it; then hoist the properties into the parent. -/
def hoist_any_of_variant (preserveDescription : Bool) (v : SchemaObject)
    (parent : Option ObjectValidation) :
    Except String (SchemaObject × Option ObjectValidation) :=
  let metadata := v.metadata
  let v₁ := (v.setMetadata Option.none).setInstanceType Option.none
  match v₁.object with
  | Option.none => .ok (v₁, parent)
  | Option.some object =>
    let object₁ := object.setAdditionalProperties Option.none
    do
      let object₂ ← tagged_variant_relocate preserveDescription metadata object₁
      let (remaining, parent') ← pop_hoist_properties object₂.properties parent
      .ok ((v₁.setObject (Option.some (object₂.setProperties remaining))), parent')

/-- Sequential variant processing of `hoist_properties_for_any_of_subschemas`
(transform_properties.rs 410-477). -/
def hoist_any_of_subschemas_loop (preserveDescription : Bool) : SchemaList →
    Option ObjectValidation → Except String (SchemaList × Option ObjectValidation)
  | .nil, parent => .ok (.nil, parent)
  | .cons (.obj o) rest, parent => do
    let (o', parent') ← hoist_any_of_variant preserveDescription o parent
    let (rest', parent'') ← hoist_any_of_subschemas_loop preserveDescription rest parent'
    .ok (.cons (.obj o') rest', parent'')
  | .cons (.bool _) _, _ => .error "oneOf and anyOf variants cannot be of type boolean"

/-- The common body of `hoist_properties_for_any_of_subschemas` once a
non-guarded subschema list has been selected (transform_properties.rs
399-477): every variant also forces the root `type` to `object`. -/
def hoist_properties_go (kube_schema : SchemaObject) (preserveDescription : Bool)
    (subschemas : SchemaList) : Except String (SchemaObject × SchemaList) := do
  check_variants_not_bool subschemas
  let (subschemas', parent') ←
    hoist_any_of_subschemas_loop preserveDescription subschemas kube_schema.object
  .ok (((kube_schema.setInstanceType (Option.some (.single .object))).setObject parent'),
       subschemas')

/-- The untagged/tagged property-hoisting pass
(`hoist_properties_for_any_of_subschemas`). -/
def hoist_properties_for_any_of_subschemas (kube_schema : SchemaObject) :
    Except String SchemaObject :=
  match kube_schema.subschemas with
  | Option.none => .ok kube_schema
  | Option.some ss =>
    match ss.anyOf, ss.oneOf with
    | Option.none, Option.none => .ok kube_schema
    | Option.some _, Option.some _ => .error "oneOf and anyOf are mutually exclusive"
    | Option.none, Option.some oneOf =>
      if oneOf.isNil then .ok kube_schema
      else if oneOf.length = 2 ∧ contains_null_marker oneOf = true then .ok kube_schema
      else do
        let (kube', oneOf') ← hoist_properties_go kube_schema true oneOf
        .ok (kube'.setSubschemas (Option.some (ss.setOneOf (Option.some oneOf'))))
    | Option.some anyOf, Option.none =>
      if anyOf.isNil then .ok kube_schema
      else if anyOf.length = 2 ∧ contains_null_marker anyOf = true then .ok kube_schema
      else do
        let (kube', anyOf') ← hoist_properties_go kube_schema false anyOf
        .ok (kube'.setSubschemas (Option.some (ss.setAnyOf (Option.some anyOf'))))

/-! ## `remove_optional_enum_null_variant`
(transform_optional_enum_with_null.rs lines 8-28) -/

/-- The null-variant cleanup pass: on a nullable enum with more than one
value, remove the literal `null` entries; a sole value is never removed. -/
def remove_optional_enum_null_variant (kube_schema : SchemaObject) : SchemaObject :=
  match kube_schema.enumValues with
  | Option.none => kube_schema
  | Option.some enum_values =>
    match lookupEntry kube_schema.extensions "nullable" with
    | Option.some (.bool true) =>
      if enum_values.length > 1 then
        kube_schema.setEnumValues
          (Option.some (enum_values.filter (fun v => decide (v ≠ JsonValue.null))))
      else kube_schema
    | _ => kube_schema

/-! ## Derived notions used in theorem statements -/

/-- The property map a variant contributes to `hoist_subschema_properties`:
its own `properties` after the description relocation (schema.rs 658-673). -/
def variantHoistedProps : Schema → PropMap
  | .obj o =>
    match o.object with
    | Option.some vo => (relocate_variant_description o.metadata vo).2.properties
    | Option.none => .nil
  | .bool _ => .nil

/-- Whether a variant is enum-bearing for `hoist_subschema_enum_values`
(the pattern of schema.rs 615-619). -/
def isEnumVariant : Schema → Bool
  | .obj o => o.enumValues.isSome
  | .bool _ => false

/-- The variants `hoist_subschema_enum_values` retains (the non-enum-bearing
ones, in order). -/
def keptVariants : SchemaList → SchemaList
  | .nil => .nil
  | .cons v rest =>
    if isEnumVariant v then keptVariants rest else .cons v (keptVariants rest)

/-- The enum values `hoist_subschema_enum_values` hoists, concatenated in
variant order. -/
def hoistedEnumValues : SchemaList → List JsonValue
  | .nil => []
  | .cons v rest =>
    (match v with
     | .obj o => if o.enumValues.isSome then o.enumValues.getD [] else []
     | .bool _ => []) ++ hoistedEnumValues rest

/-- Look up a property in an optional common object validation. -/
def commonLookup (co : Option ObjectValidation) (name : String) : Option Schema :=
  co.bind (fun cv => cv.properties.lookup name)

/-- The root `any_of` is absent (either no subschema validation at all, or
one without `any_of`). -/
def anyOfAbsent (s : SchemaObject) : Prop :=
  match s.subschemas with
  | Option.none => True
  | Option.some ss => ss.anyOf = Option.none

/-- A fully resolved subschema slot: no `one_of` and no `any_of` remain. -/
def subschemasResolved (x : SchemaObject) : Prop :=
  x.subschemas = Option.none ∨ x.subschemas = some (.mk .none .none)

/-! ## Concrete schemas used by witnesses and counterexamples -/

/-- A plain `{"type":"string"}` schema. -/
def strSchema : Schema :=
  .obj (.mk none (some (.single .string)) none none .none .none .none [] [])

/-- A `{"description":"x","type":"string"}` schema. -/
def strSchemaDesc : Schema :=
  .obj (.mk (some ⟨some "x", none⟩) (some (.single .string)) none none .none .none .none [] [])

/-- Variant `{"type":"string","enum":["C","D"]}` of the doc-commented enum
test (`transforms.rs`). -/
def exAv1 : Schema :=
  .obj (.mk none (some (.single .string)) none (some [.str "C", .str "D"]) .none .none .none [] [])

/-- Variant `{"description":"First variant doc-comment","type":"string","enum":["A"]}`. -/
def exAv2 : Schema :=
  .obj (.mk (some ⟨some "First variant doc-comment", none⟩) (some (.single .string)) none
    (some [.str "A"]) .none .none .none [] [])

/-- Variant `{"description":"Second variant doc-comment","type":"string","enum":["B"]}`. -/
def exAv3 : Schema :=
  .obj (.mk (some ⟨some "Second variant doc-comment", none⟩) (some (.single .string)) none
    (some [.str "B"]) .none .none .none [] [])

/-- The `oneOf` list of the doc-commented enum test. -/
def exAlist : SchemaList := .cons exAv1 (.cons exAv2 (.cons exAv3 .nil))

/-- The root node of the doc-commented enum test. -/
def exA : SchemaObject :=
  .mk (some ⟨some "A very simple enum with unit variants", none⟩) none none none
    (.some (.mk .none (.some exAlist))) .none .none [] []

/-- The doc-commented enum node after the per-node pipeline: type `string`,
hoisted enum `["C","D","A","B"]`, no `oneOf` left. -/
def exAout : SchemaObject :=
  .mk (some ⟨some "A very simple enum with unit variants", none⟩)
    (some (.single .string)) none
    (some [.str "C", .str "D", .str "A", .str "B"])
    (.some (.mk .none .none)) .none .none [] []

/-- Variant `{"type":"object","required":["one"],"properties":{"one":{"type":"string"}}}`. -/
def exBv1 : Schema :=
  .obj (.mk none (some (.single .object)) none none .none .none
    (.some (.mk none none ["one"] (.cons "one" strSchema .nil) .nil .none .none)) [] [])

/-- Variant `{"type":"object","required":["two"],"properties":{"two":{"type":"string"}}}`. -/
def exBv2 : Schema :=
  .obj (.mk none (some (.single .object)) none none .none .none
    (.some (.mk none none ["two"] (.cons "two" strSchema .nil) .nil .none .none)) [] [])

/-- The untagged-union example node (spec Example B). -/
def exB : SchemaObject :=
  .mk none none none none (.some (.mk (.some (.cons exBv1 (.cons exBv2 .nil))) .none))
    .none .none [] []

/-- A node whose serialization is exactly the null marker. -/
def markerSchema : Schema :=
  .obj (.mk none none none (some [.null]) .none .none .none
    [("nullable", .bool true)] [("nullable", .bool true)])

/-- An `anyOf` pair `[marker, {"description":"x","type":"string"}]` (an
`Option<String>`-like node). -/
def exOpt : SchemaObject :=
  .mk none none none none
    (.some (.mk (.some (.cons markerSchema (.cons strSchemaDesc .nil))) .none))
    .none (.some (.mk (some 3) none [] .nil .nil .none .none))
    [("k", .str "keep")] [("w", .str "keep2")]

/-- First `any_of` entry of the idempotence counterexample:
`{"type":"object","enum":[null],"nullable":true}`. -/
def c4A : Schema :=
  .obj (.mk none (some (.single .object)) none (some [.null]) .none .none .none
    [("nullable", .bool true)] [("nullable", .bool true)])

/-- Second `any_of` entry of the idempotence counterexample:
`{"type":"object","required":["x"],"properties":{"x":{"type":"string"}}}`. -/
def c4B : Schema :=
  .obj (.mk none (some (.single .object)) none none .none .none
    (.some (.mk none none ["x"] (.cons "x" strSchema .nil) .nil .none .none)) [] [])

/-- The idempotence counterexample document
`{"anyOf":[{"type":"object","enum":[null],"nullable":true},
{"type":"object","required":["x"],"properties":{"x":{"type":"string"}}}]}`. -/
def c4doc : Schema :=
  .obj (.mk none none none none (.some (.mk (.some (.cons c4A (.cons c4B .nil))) .none))
    .none .none [] [])

/-- A nullable enum node with a redundant `null` entry:
`{"enum":["A",null],"nullable":true}`. -/
def c7node : SchemaObject :=
  .mk none none none (some [.str "A", .null]) .none .none .none
    [("nullable", .bool true)] [("nullable", .bool true)]

/-- The same node as a full document. -/
def c7doc : Schema := .obj c7node

/-- A node carrying both a non-empty `oneOf` and a non-empty `anyOf`. -/
def c6node : SchemaObject :=
  .mk none none none none (.some (.mk (.some (.cons exBv1 .nil)) (.some (.cons exAv1 .nil))))
    .none .none [] []

/-- A tagged (`oneOf`) variant with no object validation (hence zero
properties): `{"type":"object"}`. -/
def c5o : SchemaObject := .mk none (some (.single .object)) none none .none .none .none [] []

/-- The zero-property variant as a schema. -/
def c5v : Schema := .obj c5o

/-- A node whose `oneOf` consists of the zero-property variant only. -/
def c5schema : SchemaObject :=
  .mk none none none none (.some (.mk .none (.some (.cons c5v .nil)))) .none .none [] []

/-- A variant declaring two properties (invalid as a tagged variant). -/
def c5badv : Schema :=
  .obj (.mk none (some (.single .object)) none none .none .none
    (.some (.mk none none [] (.cons "a" strSchema (.cons "b" strSchema .nil)) .nil .none .none))
    [] [])

/-- A tagged union containing the two-property variant. -/
def c5bad : SchemaObject :=
  .mk none none none none (.some (.mk .none (.some (.cons c5badv .nil)))) .none .none [] []

/-- The object validation of the first tagged variant (property `p`). -/
def c5vo1 : ObjectValidation := .mk none none ["p"] (.cons "p" strSchema .nil) .nil .none .none

/-- The object validation of the second tagged variant (property `q`). -/
def c5vo2 : ObjectValidation := .mk none none ["q"] (.cons "q" strSchema .nil) .nil .none .none

/-- The schema object of the bare string schema. -/
def strSchemaObj : SchemaObject :=
  .mk none (some (.single .string)) none none .none .none .none [] []

/-- Object validation declaring property `p` as the bare string schema. -/
def c2vo1 : ObjectValidation := .mk none none [] (.cons "p" strSchema .nil) .nil .none .none

/-- Object validation declaring property `p` with description `"x"`. -/
def c2vo2 : ObjectValidation := .mk none none [] (.cons "p" strSchemaDesc .nil) .nil .none .none

/-- First conflicting-by-description variant: description `"x"` on the
variant itself, its single property `p` being the bare string schema. -/
def c2o1 : SchemaObject :=
  .mk (some ⟨some "x", none⟩) none none none .none .none (.some c2vo1) [] []

/-- The first variant as a schema. -/
def c2v1 : Schema := .obj c2o1

/-- Second variant: no description, its property `p` already carrying
description `"x"`. -/
def c2o2 : SchemaObject := .mk none none none none .none .none (.some c2vo2) [] []

/-- The second variant as a schema. -/
def c2v2 : Schema := .obj c2o2

/-- Variant `exBv1` after property hoisting: required `["one"]`, empty
properties, no type. -/
def exBv1' : Schema :=
  .obj (.mk none none none none .none .none
    (.some (.mk none none ["one"] .nil .nil .none .none)) [] [])

/-- Variant `exBv2` after property hoisting. -/
def exBv2' : Schema :=
  .obj (.mk none none none none .none .none
    (.some (.mk none none ["two"] .nil .nil .none .none)) [] [])

/-- The common object validation produced by hoisting Example B's variants. -/
def exBco : ObjectValidation :=
  .mk none none [] (.cons "one" strSchema (.cons "two" strSchema .nil)) .nil .none .none

/-- The schema object of the first tagged variant. -/
def c5tag1o : SchemaObject :=
  .mk (some ⟨some "first", none⟩) (some (.single .object)) none none .none .none
    (.some c5vo1) [] []

/-- A tagged variant whose single property `p` is a plain string schema with
no metadata. -/
def c5tag1 : Schema := .obj c5tag1o

/-- The schema object of the second tagged variant. -/
def c5tag2o : SchemaObject :=
  .mk (some ⟨some "second", none⟩) (some (.single .object)) none none .none .none
    (.some c5vo2) [] []

/-- A tagged variant whose single property `q` is a plain string schema. -/
def c5tag2 : Schema := .obj c5tag2o

/-- A tagged union with two single-property variants. -/
def c5tagged : SchemaObject :=
  .mk none none none none (.some (.mk .none (.some (.cons c5tag1 (.cons c5tag2 .nil)))))
    .none .none [] []

/-- The tagged union node after property hoisting: root type `object`,
variants reduced to their `required` sets, the two properties hoisted with
the variant descriptions relocated onto them. -/
def c5out : SchemaObject :=
  .mk none (some (.single .object)) none none
    (.some (.mk .none (.some (.cons
      (.obj (.mk none none none none .none .none
        (.some (.mk none none ["p"] .nil .nil .none .none)) [] []))
      (.cons (.obj (.mk none none none none .none .none
        (.some (.mk none none ["q"] .nil .nil .none .none)) [] [])) .nil)))))
    .none
    (.some (.mk none none []
      (.cons "p" (.obj (strSchemaObj.setMetadata (some ⟨some "first", none⟩)))
        (.cons "q" (.obj (strSchemaObj.setMetadata (some ⟨some "second", none⟩))) .nil))
      .nil .none .none))
    [] []

/-- The object validation of Example C: one property `a`, and
`additionalProperties: true`. -/
def exCov : ObjectValidation :=
  .mk none none [] (.cons "a" strSchema .nil) .nil (.some (.bool true)) .none

/-- An object node with properties and `additionalProperties: true`
(spec Example C). -/
def exC : SchemaObject :=
  .mk none (some (.single .object)) none none .none .none (.some exCov) [] []

/-- An `oneOf` node mixing an enum-bearing variant and a retained variant,
for the plain-enum hoisting witness. -/
def c8list : SchemaList :=
  .cons exAv1 (.cons (.bool true) .nil)

/-! ## Basic lemmas: `Except`, maps, conversions, accessors -/

/-- Bind on a successful `Except` computation. -/
@[simp] theorem except_bind_ok {ε α β : Type} (a : α) (f : α → Except ε β) :
    (Except.ok a >>= f) = f a := rfl

/-- Bind on a failed `Except` computation. -/
@[simp] theorem except_bind_error {ε α β : Type} (e : ε) (f : α → Except ε β) :
    ((Except.error e : Except ε α) >>= f) = .error e := rfl

/-- Pure is `ok`. -/
@[simp] theorem except_pure {ε α : Type} (a : α) : (pure a : Except ε α) = .ok a := rfl

/-- Looking up the freshly inserted key. -/
theorem lookupEntry_insertEntry_self (m : List (String × JsonValue)) (k : String) (v : JsonValue) :
    lookupEntry (insertEntry m k v) k = some v := by
  induction m with
  | nil => simp [insertEntry, lookupEntry]
  | cons kv rest ih =>
    obtain ⟨k₀, v₀⟩ := kv
    by_cases hlt : strLt k k₀ = true
    · simp [insertEntry, hlt, lookupEntry]
    · by_cases heq : k = k₀
      · subst heq; simp [insertEntry, hlt, lookupEntry]
      · simp [insertEntry, hlt, heq, lookupEntry, Ne.symm heq, ih]

/-- Inserting one key does not affect lookups of other keys. -/
theorem lookupEntry_insertEntry_ne (m : List (String × JsonValue)) (k : String) (v : JsonValue)
    (k' : String) (h : k' ≠ k) :
    lookupEntry (insertEntry m k v) k' = lookupEntry m k' := by
  induction m with
  | nil => simp [insertEntry, lookupEntry, Ne.symm h]
  | cons kv rest ih =>
    obtain ⟨k₀, v₀⟩ := kv
    by_cases hlt : strLt k k₀ = true
    · simp [insertEntry, hlt, lookupEntry, Ne.symm h]
    · by_cases heq : k = k₀
      · subst heq; simp [insertEntry, hlt, lookupEntry, Ne.symm h]
      · by_cases h0 : k₀ = k'
        · subst h0; simp [insertEntry, hlt, heq, lookupEntry, ih]
        · simp [insertEntry, hlt, heq, lookupEntry, h0, ih]

/-- Looking up the freshly inserted property. -/
theorem PropMap.lookup_insert_self : ∀ (m : PropMap) (k : String) (v : Schema),
    (m.insert k v).lookup k = some v
  | .nil, k, v => by simp [PropMap.insert, PropMap.lookup]
  | .cons k₀ s₀ rest, k, v => by
    by_cases hlt : strLt k k₀ = true
    · simp [PropMap.insert, hlt, PropMap.lookup]
    · by_cases heq : k = k₀
      · subst heq; simp [PropMap.insert, hlt, PropMap.lookup]
      · simp [PropMap.insert, hlt, heq, PropMap.lookup, Ne.symm heq,
          PropMap.lookup_insert_self rest k v]

/-- Inserting a property does not affect other property lookups. -/
theorem PropMap.lookup_insert_ne : ∀ (m : PropMap) (k : String) (v : Schema)
    (k' : String), k' ≠ k → (m.insert k v).lookup k' = m.lookup k'
  | .nil, k, v, k', h => by simp [PropMap.insert, PropMap.lookup, Ne.symm h]
  | .cons k₀ s₀ rest, k, v, k', h => by
    by_cases hlt : strLt k k₀ = true
    · simp [PropMap.insert, hlt, PropMap.lookup, Ne.symm h]
    · by_cases heq : k = k₀
      · subst heq; simp [PropMap.insert, hlt, PropMap.lookup, Ne.symm h]
      · by_cases h0 : k₀ = k'
        · subst h0; simp [PropMap.insert, hlt, heq, PropMap.lookup,
            PropMap.lookup_insert_ne rest k v k₀ h]
        · simp [PropMap.insert, hlt, heq, PropMap.lookup, h0,
            PropMap.lookup_insert_ne rest k v k' h]

/-- Option conversion round trip. -/
@[simp] theorem OptSubschemas.toOption_ofOption : ∀ (x : Option SubschemaValidation),
    (OptSubschemas.ofOption x).toOption = x
  | Option.none => rfl
  | Option.some _ => rfl

/-- Accessor equations on the constructor. -/
@[simp] theorem SchemaObject.metadata_mk (md it fm ev ss arr ov ext oth) :
    (SchemaObject.mk md it fm ev ss arr ov ext oth).metadata = md := rfl

/-- Accessor equation for `instance_type`. -/
@[simp] theorem SchemaObject.instanceType_mk (md it fm ev ss arr ov ext oth) :
    (SchemaObject.mk md it fm ev ss arr ov ext oth).instanceType = it := rfl

/-- Accessor equation for `format`. -/
@[simp] theorem SchemaObject.format_mk (md it fm ev ss arr ov ext oth) :
    (SchemaObject.mk md it fm ev ss arr ov ext oth).format = fm := rfl

/-- Accessor equation for `enum_values`. -/
@[simp] theorem SchemaObject.enumValues_mk (md it fm ev ss arr ov ext oth) :
    (SchemaObject.mk md it fm ev ss arr ov ext oth).enumValues = ev := rfl

/-- Accessor equation for `subschemas`. -/
@[simp] theorem SchemaObject.subschemas_mk (md it fm ev ss arr ov ext oth) :
    (SchemaObject.mk md it fm ev ss arr ov ext oth).subschemas = ss.toOption := rfl

/-- Accessor equation for `array`. -/
@[simp] theorem SchemaObject.array_mk (md it fm ev ss arr ov ext oth) :
    (SchemaObject.mk md it fm ev ss arr ov ext oth).array = arr.toOption := rfl

/-- Accessor equation for `object`. -/
@[simp] theorem SchemaObject.object_mk (md it fm ev ss arr ov ext oth) :
    (SchemaObject.mk md it fm ev ss arr ov ext oth).object = ov.toOption := rfl

/-- Accessor equation for `extensions`. -/
@[simp] theorem SchemaObject.extensions_mk (md it fm ev ss arr ov ext oth) :
    (SchemaObject.mk md it fm ev ss arr ov ext oth).extensions = ext := rfl

/-- Accessor equation for `other`. -/
@[simp] theorem SchemaObject.other_mk (md it fm ev ss arr ov ext oth) :
    (SchemaObject.mk md it fm ev ss arr ov ext oth).other = oth := rfl

/-- Setter equation for `metadata`. -/
@[simp] theorem SchemaObject.setMetadata_mk (md it fm ev ss arr ov ext oth md') :
    (SchemaObject.mk md it fm ev ss arr ov ext oth).setMetadata md' =
      .mk md' it fm ev ss arr ov ext oth := rfl

/-- Setter equation for `instance_type`. -/
@[simp] theorem SchemaObject.setInstanceType_mk (md it fm ev ss arr ov ext oth it') :
    (SchemaObject.mk md it fm ev ss arr ov ext oth).setInstanceType it' =
      .mk md it' fm ev ss arr ov ext oth := rfl

/-- Setter equation for `enum_values`. -/
@[simp] theorem SchemaObject.setEnumValues_mk (md it fm ev ss arr ov ext oth ev') :
    (SchemaObject.mk md it fm ev ss arr ov ext oth).setEnumValues ev' =
      .mk md it fm ev' ss arr ov ext oth := rfl

/-- Setter equation for `subschemas`. -/
@[simp] theorem SchemaObject.setSubschemas_mk (md it fm ev ss arr ov ext oth ss') :
    (SchemaObject.mk md it fm ev ss arr ov ext oth).setSubschemas ss' =
      .mk md it fm ev (OptSubschemas.ofOption ss') arr ov ext oth := rfl

/-- Setter equation for `array`. -/
@[simp] theorem SchemaObject.setArray_mk (md it fm ev ss arr ov ext oth arr') :
    (SchemaObject.mk md it fm ev ss arr ov ext oth).setArray arr' =
      .mk md it fm ev ss
        (match arr' with | Option.none => .none | Option.some a => .some a) ov ext oth := rfl

/-- Setter equation for `object`. -/
@[simp] theorem SchemaObject.setObject_mk (md it fm ev ss arr ov ext oth ov') :
    (SchemaObject.mk md it fm ev ss arr ov ext oth).setObject ov' =
      .mk md it fm ev ss arr
        (match ov' with | Option.none => .none | Option.some v => .some v) ext oth := rfl

/-- Setter equation for `extensions`. -/
@[simp] theorem SchemaObject.setExtensions_mk (md it fm ev ss arr ov ext oth ext') :
    (SchemaObject.mk md it fm ev ss arr ov ext oth).setExtensions ext' =
      .mk md it fm ev ss arr ov ext' oth := rfl

/-- Setter equation for `other`. -/
@[simp] theorem SchemaObject.setOther_mk (md it fm ev ss arr ov ext oth oth') :
    (SchemaObject.mk md it fm ev ss arr ov ext oth).setOther oth' =
      .mk md it fm ev ss arr ov ext oth' := rfl

/-- Accessor equation for `any_of`. -/
@[simp] theorem SubschemaValidation.anyOf_mk (ao oo) :
    (SubschemaValidation.mk ao oo).anyOf = ao.toOption := rfl

/-- Accessor equation for `one_of`. -/
@[simp] theorem SubschemaValidation.oneOf_mk (ao oo) :
    (SubschemaValidation.mk ao oo).oneOf = oo.toOption := rfl

/-- Setter equation for `any_of`. -/
@[simp] theorem SubschemaValidation.setAnyOf_mk (ao oo ao') :
    (SubschemaValidation.mk ao oo).setAnyOf ao' =
      .mk (match ao' with | Option.none => .none | Option.some l => .some l) oo := rfl

/-- Setter equation for `one_of`. -/
@[simp] theorem SubschemaValidation.setOneOf_mk (ao oo oo') :
    (SubschemaValidation.mk ao oo).setOneOf oo' =
      .mk ao (match oo' with | Option.none => .none | Option.some l => .some l) := rfl

/-- Conversion equation. -/
@[simp] theorem OptSchemaList.toOption_list_none : (OptSchemaList.none).toOption = Option.none := rfl

/-- Conversion equation. -/
@[simp] theorem OptSchemaList.toOption_list_some (l) :
    (OptSchemaList.some l).toOption = Option.some l := rfl

/-- Conversion equation. -/
@[simp] theorem OptSubschemas.toOption_sub_none : (OptSubschemas.none).toOption = Option.none := rfl

/-- Conversion equation. -/
@[simp] theorem OptSubschemas.toOption_sub_some (v) :
    (OptSubschemas.some v).toOption = Option.some v := rfl

/-- Conversion equation. -/
@[simp] theorem OptSchema.toOption_schema_none : (OptSchema.none).toOption = Option.none := rfl

/-- Conversion equation. -/
@[simp] theorem OptSchema.toOption_schema_some (s) : (OptSchema.some s).toOption = Option.some s := rfl

/-- Conversion equation. -/
@[simp] theorem OptArrayValidation.toOption_array_none :
    (OptArrayValidation.none).toOption = Option.none := rfl

/-- Conversion equation. -/
@[simp] theorem OptArrayValidation.toOption_array_some (v) :
    (OptArrayValidation.some v).toOption = Option.some v := rfl

/-- Conversion equation. -/
@[simp] theorem OptObjectValidation.toOption_object_none :
    (OptObjectValidation.none).toOption = Option.none := rfl

/-- Conversion equation. -/
@[simp] theorem OptObjectValidation.toOption_object_some (v) :
    (OptObjectValidation.some v).toOption = Option.some v := rfl

/-- Accessor equation for `properties`. -/
@[simp] theorem ObjectValidation.properties_mk (maxP minP req props patProps addProps propNames) :
    (ObjectValidation.mk maxP minP req props patProps addProps propNames).properties = props := rfl

/-- Accessor equation for `required`. -/
@[simp] theorem ObjectValidation.required_mk (maxP minP req props patProps addProps propNames) :
    (ObjectValidation.mk maxP minP req props patProps addProps propNames).required = req := rfl

/-- Accessor equation for `additional_properties`. -/
@[simp] theorem ObjectValidation.additionalProperties_mk
    (maxP minP req props patProps addProps propNames) :
    (ObjectValidation.mk maxP minP req props patProps addProps propNames).additionalProperties =
      addProps.toOption := rfl

/-- Setter equation for `properties`. -/
@[simp] theorem ObjectValidation.setProperties_mk
    (maxP minP req props patProps addProps propNames props') :
    (ObjectValidation.mk maxP minP req props patProps addProps propNames).setProperties props' =
      .mk maxP minP req props' patProps addProps propNames := rfl

/-- Setter equation for `additional_properties`. -/
@[simp] theorem ObjectValidation.setAdditionalProperties_mk
    (maxP minP req props patProps addProps propNames ap') :
    (ObjectValidation.mk maxP minP req props patProps addProps
      propNames).setAdditionalProperties ap' =
      .mk maxP minP req props patProps
        (match ap' with | Option.none => .none | Option.some s => .some s) propNames := rfl

/-- Accessor equation for `unique_items`. -/
@[simp] theorem ArrayValidation.uniqueItems_mk (items addItems maxI minI ui contains) :
    (ArrayValidation.mk items addItems maxI minI ui contains).uniqueItems = ui := rfl

/-- Setter equation for `unique_items`. -/
@[simp] theorem ArrayValidation.setUniqueItems_mk (items addItems maxI minI ui contains ui') :
    (ArrayValidation.mk items addItems maxI minI ui contains).setUniqueItems ui' =
      .mk items addItems maxI minI ui' contains := rfl

/-- Setting a field to its current value is the identity. -/
theorem SchemaObject.setSubschemas_self : ∀ (s : SchemaObject), s.setSubschemas s.subschemas = s
  | .mk _ _ _ _ ss _ _ _ _ => by cases ss <;> rfl

/-- Setting `object` to its current value is the identity. -/
theorem SchemaObject.setObject_self : ∀ (s : SchemaObject), s.setObject s.object = s
  | .mk _ _ _ _ _ _ ov _ _ => by cases ov <;> rfl

/-- Setting `array` to its current value is the identity. -/
theorem SchemaObject.setArray_self : ∀ (s : SchemaObject), s.setArray s.array = s
  | .mk _ _ _ _ _ arr _ _ _ => by cases arr <;> rfl

/-- Setting `instance_type` to its current value is the identity. -/
theorem SchemaObject.setInstanceType_self : ∀ (s : SchemaObject),
    s.setInstanceType s.instanceType = s
  | .mk _ _ _ _ _ _ _ _ _ => rfl

/-- Setting `enum_values` to its current value is the identity. -/
theorem SchemaObject.setEnumValues_self : ∀ (s : SchemaObject), s.setEnumValues s.enumValues = s
  | .mk _ _ _ _ _ _ _ _ _ => rfl

/-- Membership in `toList` of a cons cell. -/
@[simp] theorem SchemaList.toList_cons (s : Schema) (rest : SchemaList) :
    (SchemaList.cons s rest).toList = s :: rest.toList := rfl

/-- The empty list converts to the empty list. -/
@[simp] theorem SchemaList.toList_nil : (SchemaList.nil).toList = [] := rfl

/-- A non-nil property map has `isNil = false`. -/
theorem PropMap.isNil_eq_false : ∀ (m : PropMap), m ≠ .nil → m.isNil = false
  | .nil, h => absurd rfl h
  | .cons _ _ _, _ => rfl

/-- Reading `subschemas` after setting it. -/
@[simp] theorem SchemaObject.subschemas_setSubschemas : ∀ (x : SchemaObject)
    (v : Option SubschemaValidation), (x.setSubschemas v).subschemas = v
  | .mk _ _ _ _ _ _ _ _ _, Option.none => rfl
  | .mk _ _ _ _ _ _ _ _ _, Option.some _ => rfl

/-- Setting `one_of` does not change `any_of`. -/
@[simp] theorem SubschemaValidation.anyOf_setOneOf : ∀ (ss : SubschemaValidation)
    (v : Option SchemaList), (ss.setOneOf v).anyOf = ss.anyOf
  | .mk _ _, Option.none => rfl
  | .mk _ _, Option.some _ => rfl

/-- Reading `one_of` after setting it. -/
@[simp] theorem SubschemaValidation.oneOf_setOneOf : ∀ (ss : SubschemaValidation)
    (v : Option SchemaList), (ss.setOneOf v).oneOf = v
  | .mk _ _, Option.none => rfl
  | .mk _ _, Option.some _ => rfl

/-- Setting `metadata` does not change `object`. -/
@[simp] theorem SchemaObject.object_setMetadata : ∀ (x : SchemaObject) (v : Option Metadata),
    (x.setMetadata v).object = x.object
  | .mk _ _ _ _ _ _ _ _ _, _ => rfl

/-- Setting `instance_type` does not change `object`. -/
@[simp] theorem SchemaObject.object_setInstanceType : ∀ (x : SchemaObject)
    (v : Option (SingleOrVec InstanceType)), (x.setInstanceType v).object = x.object
  | .mk _ _ _ _ _ _ _ _ _, _ => rfl

/-- Setting `subschemas` does not change `object`. -/
@[simp] theorem SchemaObject.object_setSubschemas : ∀ (x : SchemaObject)
    (v : Option SubschemaValidation), (x.setSubschemas v).object = x.object
  | .mk _ _ _ _ _ _ _ _ _, _ => rfl

/-- Reading `object` after setting it. -/
@[simp] theorem SchemaObject.object_setObject : ∀ (x : SchemaObject)
    (v : Option ObjectValidation), (x.setObject v).object = v
  | .mk _ _ _ _ _ _ _ _ _, Option.none => rfl
  | .mk _ _ _ _ _ _ _ _ _, Option.some _ => rfl

/-- Setting `metadata` does not change `metadata`-independent accessors:
`metadata` after `setMetadata`. -/
@[simp] theorem SchemaObject.metadata_setMetadata : ∀ (x : SchemaObject) (v : Option Metadata),
    (x.setMetadata v).metadata = v
  | .mk _ _ _ _ _ _ _ _ _, _ => rfl

/-- Clearing `additional_properties` does not change `properties`. -/
@[simp] theorem ObjectValidation.properties_setAdditionalProperties : ∀ (vo : ObjectValidation)
    (v : Option Schema), (vo.setAdditionalProperties v).properties = vo.properties
  | .mk _ _ _ _ _ _ _, Option.none => rfl
  | .mk _ _ _ _ _ _ _, Option.some _ => rfl

/-- Reading `properties` after setting them. -/
@[simp] theorem ObjectValidation.properties_setProperties : ∀ (vo : ObjectValidation)
    (v : PropMap), (vo.setProperties v).properties = v
  | .mk _ _ _ _ _ _ _, _ => rfl

/-- Type checking succeeds when every variant's type is the common one. -/
theorem checkVariantTypes_ok : ∀ (l : SchemaList) (t : SingleOrVec InstanceType),
    (∀ w ∈ l.toList, variantInstanceType w = .ok t) → checkVariantTypes t l = .ok ()
  | .nil, _, _ => rfl
  | .cons v rest, t, h => by
    have hv := h v (by simp)
    simp only [checkVariantTypes, hv, except_bind_ok, if_pos rfl]
    exact checkVariantTypes_ok rest t (fun w hw => h w (by simp [hw]))

/-- Enum/const extraction succeeds when it succeeds on every variant. -/
theorem oneOfEnumConsts_ok : ∀ (l : SchemaList),
    (∀ w ∈ l.toList, ∃ evs, variantEnumOrConst w = .ok evs) →
    ∃ evsAll, oneOfEnumConsts l = .ok evsAll
  | .nil, _ => ⟨[], rfl⟩
  | .cons v rest, h => by
    obtain ⟨evs, hv⟩ := h v (by simp)
    obtain ⟨evsAll, hrest⟩ := oneOfEnumConsts_ok rest (fun w hw => h w (by simp [hw]))
    exact ⟨evs ++ evsAll, by simp [oneOfEnumConsts, hv, hrest]⟩

/-! ## Claim C1 -/

/-- C1: for a present, non-empty `one_of` whose variants are all `Object`
schemas with the identical instance type `t` and each providing `enum` values
or a `const` value, `hoist_one_of_enum` returns the node with root
`instance_type = t`, root `enum_values` equal to the original root enum list
(empty if absent) extended by the concatenation, in variant order, of each
variant's enum values or its single const value (`oneOfEnumConsts`), and with
`one_of` cleared. -/
theorem c1_hoist_one_of_enum (incoming : SchemaObject) (ss : SubschemaValidation)
    (v : Schema) (rest : SchemaList) (t : SingleOrVec InstanceType)
    (hss : incoming.subschemas = some ss)
    (hoo : ss.oneOf = some (.cons v rest))
    (htypes : ∀ w ∈ (SchemaList.cons v rest).toList, variantInstanceType w = .ok t)
    (henums : ∀ w ∈ (SchemaList.cons v rest).toList, ∃ evs, variantEnumOrConst w = .ok evs) :
    ∃ evsAll, oneOfEnumConsts (.cons v rest) = .ok evsAll ∧
      hoist_one_of_enum incoming = .ok
        (((incoming.setInstanceType (some t)).setEnumValues
           (some (incoming.enumValues.getD [] ++ evsAll))).setSubschemas
           (some (ss.setOneOf Option.none))) := by
  obtain ⟨evsAll, hconsts⟩ := oneOfEnumConsts_ok _ henums
  refine ⟨evsAll, hconsts, ?_⟩
  have hv := htypes v (by simp)
  have hcheck := checkVariantTypes_ok rest t (fun w hw => htypes w (by simp [hw]))
  simp [hoist_one_of_enum, hss, hoo, hv, hcheck, hconsts]

/-- C1 witness: the doc-commented enum example, with enum values
`["C","D"] ++ ["A"] ++ ["B"]` hoisted in variant order. -/
theorem c1_witness :
    ∃ evsAll, oneOfEnumConsts (.cons exAv1 (.cons exAv2 (.cons exAv3 .nil))) = .ok evsAll ∧
      hoist_one_of_enum exA = .ok
        (((exA.setInstanceType (some (.single .string))).setEnumValues
           (some (exA.enumValues.getD [] ++ evsAll))).setSubschemas
           (some ((SubschemaValidation.mk .none (.some exAlist)).setOneOf Option.none))) :=
  c1_hoist_one_of_enum exA (.mk .none (.some exAlist)) exAv1 (.cons exAv2 (.cons exAv3 .nil))
    (.single .string) rfl rfl (by decide)
    (by
      intro w hw
      simp [exAlist] at hw
      rcases hw with rfl | rfl | rfl
      · exact ⟨[.str "C", .str "D"], by decide⟩
      · exact ⟨[.str "A"], by decide⟩
      · exact ⟨[.str "B"], by decide⟩)

/-! ## Claims C3 and C10 -/

/-- Shared helper: when the pass applies (exactly one of the two entries is
the marker and the other is an `Object`), the result is
`hoisted_option_schema`. -/
theorem hoist_any_of_option_enum_applies (incoming : SchemaObject) (ss : SubschemaValidation)
    (a b : Schema) (o : SchemaObject)
    (hss : incoming.subschemas = some ss)
    (hao : ss.anyOf = some (.cons a (.cons b .nil)))
    (hcase : (encodeSchema a = nullMarker ∧ encodeSchema b ≠ nullMarker ∧ b = .obj o) ∨
             (encodeSchema b = nullMarker ∧ encodeSchema a ≠ nullMarker ∧ a = .obj o)) :
    hoist_any_of_option_enum incoming = .ok (hoisted_option_schema incoming ss o) := by
  rcases hcase with ⟨hma, hmb, rfl⟩ | ⟨hmb, hma, rfl⟩
  · simp [hoist_any_of_option_enum, hss, hao, hma, hmb, hoist_any_of_option_enum_go,
      hoisted_option_schema]
  · simp [hoist_any_of_option_enum, hss, hao, hma, hmb, hoist_any_of_option_enum_go,
      hoisted_option_schema]

/-- C3: on an `any_of` of exactly two entries, `hoist_any_of_option_enum`
is the identity when neither entry is byte-equal to the marker
`{"enum":[null],"nullable":true}`, aborts when both are, and otherwise hoists
the other (`Object`) entry: its description, `instance_type`, and
`enum_values` replace the root's, the `nullable` key of the root's catch-all
(serialized as the root `nullable` extension) is set to `true`, and `any_of`
is cleared. -/
theorem c3_hoist_any_of_option_enum (incoming : SchemaObject) (ss : SubschemaValidation)
    (a b : Schema)
    (hss : incoming.subschemas = some ss)
    (hao : ss.anyOf = some (.cons a (.cons b .nil))) :
    (encodeSchema a ≠ nullMarker → encodeSchema b ≠ nullMarker →
       hoist_any_of_option_enum incoming = .ok incoming) ∧
    (encodeSchema a = nullMarker → encodeSchema b = nullMarker →
       hoist_any_of_option_enum incoming = .error "Too many nulls, not enough drinks") ∧
    (∀ o, encodeSchema a = nullMarker → encodeSchema b ≠ nullMarker → b = .obj o →
       hoist_any_of_option_enum incoming = .ok (hoisted_option_schema incoming ss o)) ∧
    (∀ o, encodeSchema b = nullMarker → encodeSchema a ≠ nullMarker → a = .obj o →
       hoist_any_of_option_enum incoming = .ok (hoisted_option_schema incoming ss o)) ∧
    (∀ o, (hoisted_option_schema incoming ss o).instanceType = o.instanceType ∧
       (hoisted_option_schema incoming ss o).enumValues = o.enumValues ∧
       ((hoisted_option_schema incoming ss o).metadata.map Metadata.description) =
         some (o.metadata.bind (fun m => m.description)) ∧
       lookupEntry (hoisted_option_schema incoming ss o).other "nullable" = some (.bool true) ∧
       ((hoisted_option_schema incoming ss o).subschemas.map SubschemaValidation.anyOf) =
         some Option.none) := by
  obtain ⟨md, it, fm, ev, ssf, arr, ov, ext, oth⟩ := incoming
  obtain ⟨ao, oo⟩ := ss
  refine ⟨?_, ?_, ?_, ?_, ?_⟩
  · intro hma hmb
    simp [hoist_any_of_option_enum, hss, hao, hma, hmb]
  · intro hma hmb
    simp [hoist_any_of_option_enum, hss, hao, hma, hmb]
  · intro o hma hmb hb
    exact hoist_any_of_option_enum_applies _ _ a b o hss hao (Or.inl ⟨hma, hmb, hb⟩)
  · intro o hmb hma ha
    exact hoist_any_of_option_enum_applies _ _ a b o hss hao (Or.inr ⟨hmb, hma, ha⟩)
  · intro o
    refine ⟨by simp [hoisted_option_schema], by simp [hoisted_option_schema],
      by simp [hoisted_option_schema], ?_, by simp [hoisted_option_schema]⟩
    simp [hoisted_option_schema, lookupEntry_insertEntry_self]

/-- C3 witness: an `anyOf` pair of the marker and
`{"description":"x","type":"string"}` hoists the string schema. -/
theorem c3_witness :
    hoist_any_of_option_enum exOpt = .ok (hoisted_option_schema exOpt
      (.mk (.some (.cons markerSchema (.cons strSchemaDesc .nil))) .none)
      (.mk (some ⟨some "x", none⟩) (some (.single .string)) none none .none .none .none [] [])) :=
  (c3_hoist_any_of_option_enum exOpt
    (.mk (.some (.cons markerSchema (.cons strSchemaDesc .nil))) .none)
    markerSchema strSchemaDesc rfl rfl).2.2.1
    (.mk (some ⟨some "x", none⟩) (some (.single .string)) none none .none .none .none [] [])
    (by decide) (by decide) rfl

/-- C10: when the nullable-optional hoist applies, every root field other
than the description, `instance_type`, `enum_values`, the `nullable` key,
and `any_of` is unchanged: `format`, `array`, `object`, `one_of`, the
`extensions` map, the `default` metadata, and every other key of the
catch-all are preserved. -/
theorem c10_hoist_any_of_option_enum_frame (incoming : SchemaObject) (ss : SubschemaValidation)
    (a b : Schema) (o : SchemaObject)
    (hss : incoming.subschemas = some ss)
    (hao : ss.anyOf = some (.cons a (.cons b .nil)))
    (hcase : (encodeSchema a = nullMarker ∧ encodeSchema b ≠ nullMarker ∧ b = .obj o) ∨
             (encodeSchema b = nullMarker ∧ encodeSchema a ≠ nullMarker ∧ a = .obj o)) :
    ∃ out, hoist_any_of_option_enum incoming = .ok out ∧
      out.format = incoming.format ∧
      out.array = incoming.array ∧
      out.object = incoming.object ∧
      out.extensions = incoming.extensions ∧
      (out.metadata.bind (fun m => m.default)) = (incoming.metadata.bind (fun m => m.default)) ∧
      (out.subschemas.map SubschemaValidation.oneOf) = some ss.oneOf ∧
      (∀ k, k ≠ "nullable" → lookupEntry out.other k = lookupEntry incoming.other k) := by
  refine ⟨hoisted_option_schema incoming ss o,
    hoist_any_of_option_enum_applies incoming ss a b o hss hao hcase, ?_⟩
  obtain ⟨md, it, fm, ev, ssf, arr, ov, ext, oth⟩ := incoming
  obtain ⟨ao, oo⟩ := ss
  refine ⟨by simp [hoisted_option_schema], by simp [hoisted_option_schema],
    by simp [hoisted_option_schema], by simp [hoisted_option_schema], ?_, ?_, ?_⟩
  · cases md <;> simp [hoisted_option_schema, default]
  · simp [hoisted_option_schema]
  · intro k hk
    simp [hoisted_option_schema, lookupEntry_insertEntry_ne _ _ _ _ hk]

/-- C10 witness: the hoist applied to the concrete optional-enum node,
instantiated through the frame theorem. -/
theorem c10_witness :
    ∃ out, hoist_any_of_option_enum exOpt = .ok out ∧
      out.format = exOpt.format ∧
      out.array = exOpt.array ∧
      out.object = exOpt.object ∧
      out.extensions = exOpt.extensions ∧
      (out.metadata.bind (fun m => m.default)) = (exOpt.metadata.bind (fun m => m.default)) ∧
      (out.subschemas.map SubschemaValidation.oneOf) =
        some (SubschemaValidation.mk (.some (.cons markerSchema (.cons strSchemaDesc .nil)))
          .none).oneOf ∧
      (∀ k, k ≠ "nullable" → lookupEntry out.other k = lookupEntry exOpt.other k) :=
  c10_hoist_any_of_option_enum_frame exOpt
    (.mk (.some (.cons markerSchema (.cons strSchemaDesc .nil))) .none)
    markerSchema strSchemaDesc
    (.mk (some ⟨some "x", none⟩) (some (.single .string)) none none .none .none .none [] [])
    rfl rfl (Or.inl ⟨by decide, by decide, rfl⟩)

/-! ## Claim C6 -/

/-- C6: `hoist_properties_for_any_of_subschemas` aborts with the
mutual-exclusion diagnostic whenever both `one_of` and `any_of` are present
and non-empty. -/
theorem c6_simultaneous_one_of_any_of_is_error (kube_schema : SchemaObject)
    (ss : SubschemaValidation) (l₁ l₂ : SchemaList)
    (hss : kube_schema.subschemas = some ss)
    (hoo : ss.oneOf = some l₁) (hao : ss.anyOf = some l₂)
    (hne₁ : l₁ ≠ .nil) (hne₂ : l₂ ≠ .nil) :
    hoist_properties_for_any_of_subschemas kube_schema =
      .error "oneOf and anyOf are mutually exclusive" := by
  simp [hoist_properties_for_any_of_subschemas, hss, hoo, hao]

/-- C6 witness: a node with both a non-empty `oneOf` and a non-empty
`anyOf`. -/
theorem c6_witness :
    hoist_properties_for_any_of_subschemas c6node =
      .error "oneOf and anyOf are mutually exclusive" :=
  c6_simultaneous_one_of_any_of_is_error c6node
    (.mk (.some (.cons exBv1 .nil)) (.some (.cons exAv1 .nil)))
    (.cons exAv1 .nil) (.cons exBv1 .nil) rfl rfl rfl (by decide) (by decide)

/-! ## Claim C9 -/

/-- C9: the map-shape fixup (step 5 of the per-node pipeline) removes
`additionalProperties` and sets the `x-kubernetes-preserve-unknown-fields`
extension to `true` exactly when the object validation has non-empty
`properties` and `additionalProperties` is the boolean-`true` schema; any
other node is left unchanged. -/
theorem c9_map_shape_fixup (schema : SchemaObject) :
    (∀ ov, schema.object = some ov → ov.properties ≠ .nil →
       ov.additionalProperties = some (.bool true) →
       map_shape_fixup schema =
         (schema.setObject (some (ov.setAdditionalProperties Option.none))).setExtensions
           (insertEntry schema.extensions "x-kubernetes-preserve-unknown-fields" (.bool true)) ∧
       (map_shape_fixup schema).object = some (ov.setAdditionalProperties Option.none) ∧
       (ov.setAdditionalProperties Option.none).additionalProperties = Option.none ∧
       lookupEntry (map_shape_fixup schema).extensions "x-kubernetes-preserve-unknown-fields" =
         some (.bool true)) ∧
    (∀ ov, schema.object = some ov →
       (ov.properties = .nil ∨ ov.additionalProperties ≠ some (.bool true)) →
       map_shape_fixup schema = schema) ∧
    (schema.object = Option.none → map_shape_fixup schema = schema) := by
  obtain ⟨md, it, fm, ev, ssf, arr, ov₀, ext, oth⟩ := schema
  refine ⟨?_, ?_, ?_⟩
  · rintro ⟨maxP, minP, req, props, patProps, addProps, propNames⟩ hov hne hap
    cases ov₀ with
    | none => simp at hov
    | some ovv =>
      simp only [SchemaObject.object_mk, OptObjectValidation.toOption_object_some, Option.some.injEq]
        at hov
      subst hov
      simp only [ObjectValidation.properties_mk] at hne
      simp only [ObjectValidation.additionalProperties_mk] at hap
      have hnil := PropMap.isNil_eq_false _ hne
      cases addProps with
      | none => simp at hap
      | some apv =>
        simp only [OptSchema.toOption_schema_some, Option.some.injEq] at hap
        subst hap
        constructor
        · simp [map_shape_fixup, hnil]
        · constructor
          · simp [map_shape_fixup, hnil]
          · constructor
            · simp
            · simp [map_shape_fixup, hnil, lookupEntry_insertEntry_self]
  · rintro ⟨maxP, minP, req, props, patProps, addProps, propNames⟩ hov hcase
    cases ov₀ with
    | none => simp at hov
    | some ovv =>
      simp only [SchemaObject.object_mk, OptObjectValidation.toOption_object_some, Option.some.injEq]
        at hov
      subst hov
      rcases hcase with hnil | hap
      · simp only [ObjectValidation.properties_mk] at hnil
        subst hnil
        simp [map_shape_fixup, PropMap.isNil]
      · simp only [ObjectValidation.additionalProperties_mk] at hap
        simp [map_shape_fixup, hap]
  · intro hov
    cases ov₀ with
    | none => simp [map_shape_fixup]
    | some ovv => simp at hov

/-- C9 witness: Example C — property `a` plus `additionalProperties: true`
gains the preserve-unknown-fields flag and loses `additionalProperties`. -/
theorem c9_witness :
    map_shape_fixup exC =
      (exC.setObject (some (exCov.setAdditionalProperties Option.none))).setExtensions
        (insertEntry exC.extensions "x-kubernetes-preserve-unknown-fields" (.bool true)) ∧
    lookupEntry (map_shape_fixup exC).extensions "x-kubernetes-preserve-unknown-fields" =
      some (.bool true) := by
  have h := (c9_map_shape_fixup exC).1 exCov rfl (by decide) rfl
  exact ⟨h.1, h.2.2.2⟩

/-! ## Claim C7 -/

/-- C7 counterexample: the full rewrite pipeline (`transform_schema`) leaves
the nullable enum `{"enum":["A",null],"nullable":true}` untouched — the
literal `null` entry survives — because the pipeline never invokes the
null-variant cleanup pass. -/
theorem c7_pipeline_counterexample :
    transform_schema c7doc = .ok c7doc ∧
    c7node.enumValues = some [.str "A", .null] ∧
    lookupEntry c7node.extensions "nullable" = some (.bool true) ∧
    JsonValue.null ∈ [JsonValue.str "A", JsonValue.null] := by
  refine ⟨by decide, rfl, rfl, by decide⟩

/-- C7 (amended): the standalone cleanup pass
`remove_optional_enum_null_variant` — which the current pipeline does not
invoke — removes the literal `null` entries of a nullable enum with more than
one value, and keeps a sole value untouched. -/
theorem c7_remove_optional_enum_null (s : SchemaObject) (evs : List JsonValue)
    (hev : s.enumValues = some evs)
    (hnul : lookupEntry s.extensions "nullable" = some (.bool true)) :
    (1 < evs.length →
       remove_optional_enum_null_variant s =
         s.setEnumValues (some (evs.filter (fun v => decide (v ≠ JsonValue.null)))) ∧
       ∀ w ∈ evs.filter (fun v => decide (v ≠ JsonValue.null)), w ≠ JsonValue.null) ∧
    (¬ 1 < evs.length → remove_optional_enum_null_variant s = s) := by
  constructor
  · intro hlen
    constructor
    · simp [remove_optional_enum_null_variant, hev, hnul, hlen]
    · intro w hw
      simp only [List.mem_filter, decide_eq_true_eq] at hw
      exact hw.2
  · intro hlen
    simp [remove_optional_enum_null_variant, hev, hnul, hlen]

/-- C7 witness: the cleanup pass applied directly to
`{"enum":["A",null],"nullable":true}` drops the `null`. -/
theorem c7_witness :
    remove_optional_enum_null_variant c7node =
      c7node.setEnumValues (some ([JsonValue.str "A", JsonValue.null].filter
        (fun v => decide (v ≠ JsonValue.null)))) ∧
    ∀ w ∈ [JsonValue.str "A", JsonValue.null].filter (fun v => decide (v ≠ JsonValue.null)),
      w ≠ JsonValue.null :=
  (c7_remove_optional_enum_null c7node [.str "A", .null] rfl rfl).1 (by decide)

/-! ## Claim C8 -/

/-- If no variant is enum-bearing, nothing is hoisted. -/
theorem hoistedEnumValues_nil_of_no_enum : ∀ (l : SchemaList),
    l.toList.any isEnumVariant = false → hoistedEnumValues l = []
  | .nil, _ => rfl
  | .cons v rest, h => by
    simp only [SchemaList.toList_cons, List.any_cons, Bool.or_eq_false_iff] at h
    cases v with
    | bool b => simp [hoistedEnumValues, hoistedEnumValues_nil_of_no_enum rest h.2]
    | obj o =>
      have : o.enumValues.isSome = false := by simpa [isEnumVariant] using h.1
      simp [hoistedEnumValues, this, hoistedEnumValues_nil_of_no_enum rest h.2]

/-- Success specification of `hoist_subschema_enum_values`: the retained list
is exactly the non-enum-bearing variants (unchanged, in order), the root enum
list is extended by the hoisted values in variant order, an
already-established root type is preserved, and every enum-bearing variant's
declared type equals the final root type. -/
theorem hoist_enum_values_ok_spec : ∀ (l : SchemaList) (ce : Option (List JsonValue))
    (it : Option (SingleOrVec InstanceType)) (l' : SchemaList)
    (ce' : Option (List JsonValue)) (it' : Option (SingleOrVec InstanceType)),
    hoist_subschema_enum_values l ce it = .ok (l', ce', it') →
    l' = keptVariants l ∧
    ce' = (if l.toList.any isEnumVariant then some (ce.getD [] ++ hoistedEnumValues l) else ce) ∧
    (∀ t₀, it = some t₀ → it' = some t₀) ∧
    (∀ o : SchemaObject, Schema.obj o ∈ l.toList → o.enumValues.isSome = true →
       o.instanceType = Option.none ∨ o.instanceType = it')
  | .nil, ce, it, l', ce', it', h => by
    simp only [hoist_subschema_enum_values, Except.ok.injEq, Prod.mk.injEq] at h
    obtain ⟨rfl, rfl, rfl⟩ := h
    exact ⟨rfl, by simp [keptVariants], fun t₀ ht => ht, by simp⟩
  | .cons (.bool b) rest, ce, it, l', ce', it', h => by
    simp only [hoist_subschema_enum_values] at h
    cases hrest : hoist_subschema_enum_values rest ce it with
    | error e => rw [hrest] at h; simp at h
    | ok r =>
      obtain ⟨r1, r2, r3⟩ := r
      rw [hrest] at h
      simp only [except_bind_ok, Except.ok.injEq, Prod.mk.injEq] at h
      obtain ⟨rfl, rfl, rfl⟩ := h
      obtain ⟨ih1, ih2, ih3, ih4⟩ := hoist_enum_values_ok_spec rest ce it r1 r2 r3 hrest
      refine ⟨by simp [keptVariants, isEnumVariant, ih1], ?_, ih3, ?_⟩
      · simpa [isEnumVariant, hoistedEnumValues] using ih2
      · intro o ho hev
        simp only [SchemaList.toList_cons, List.mem_cons] at ho
        rcases ho with ho | ho
        · exact absurd ho (by simp)
        · exact ih4 o ho hev
  | .cons (.obj o) rest, ce, it, l', ce', it', h => by
    simp only [hoist_subschema_enum_values] at h
    cases hev : o.enumValues with
    | none =>
      rw [hev] at h
      cases hrest : hoist_subschema_enum_values rest ce it with
      | error e => rw [hrest] at h; simp at h
      | ok r =>
        obtain ⟨r1, r2, r3⟩ := r
        rw [hrest] at h
        simp only [except_bind_ok, Except.ok.injEq, Prod.mk.injEq] at h
        obtain ⟨rfl, rfl, rfl⟩ := h
        obtain ⟨ih1, ih2, ih3, ih4⟩ := hoist_enum_values_ok_spec rest ce it r1 r2 r3 hrest
        refine ⟨by simp [keptVariants, isEnumVariant, hev, ih1], ?_, ih3, ?_⟩
        · simpa [isEnumVariant, hoistedEnumValues, hev] using ih2
        · intro o' ho' hev'
          simp only [SchemaList.toList_cons, List.mem_cons] at ho'
          rcases ho' with ho' | ho'
          · exfalso
            have : o' = o := by injection ho'
            subst this
            rw [hev] at hev'
            simp at hev'
          · exact ih4 o' ho' hev'
    | some evs =>
      rw [hev] at h
      -- resolve the type-merging step first
      have key : ∀ (it₁ : Option (SingleOrVec InstanceType)),
          (o.instanceType = Option.none ∨ o.instanceType = it₁) →
          (∀ t₀, it = some t₀ → it₁ = some t₀) →
          hoist_subschema_enum_values rest (some (ce.getD [] ++ evs)) it₁ = .ok (l', ce', it') →
          l' = keptVariants (.cons (.obj o) rest) ∧
          ce' = (if (SchemaList.cons (.obj o) rest).toList.any isEnumVariant then
                   some (ce.getD [] ++ hoistedEnumValues (.cons (.obj o) rest)) else ce) ∧
          (∀ t₀, it = some t₀ → it' = some t₀) ∧
          (∀ o' : SchemaObject, Schema.obj o' ∈ (SchemaList.cons (.obj o) rest).toList →
             o'.enumValues.isSome = true →
             o'.instanceType = Option.none ∨ o'.instanceType = it') := by
        intro it₁ hty hpres hrest
        obtain ⟨ih1, ih2, ih3, ih4⟩ :=
          hoist_enum_values_ok_spec rest (some (ce.getD [] ++ evs)) it₁ l' ce' it' hrest
        refine ⟨by simp [keptVariants, isEnumVariant, hev, ih1], ?_, ?_, ?_⟩
        · rw [ih2]
          by_cases hany : rest.toList.any isEnumVariant = true
          · simp [hany, isEnumVariant, hev, hoistedEnumValues]
          · have hnone := hoistedEnumValues_nil_of_no_enum rest (by simpa using hany)
            simp [hany, isEnumVariant, hev, hoistedEnumValues, hnone]
        · intro t₀ ht
          exact ih3 t₀ (hpres t₀ ht)
        · intro o' ho' hev'
          simp only [SchemaList.toList_cons, List.mem_cons] at ho'
          rcases ho' with ho' | ho'
          · have hoo' : o' = o := by injection ho'
            subst hoo'
            rcases hty with hty | hty
            · exact Or.inl hty
            · cases hit₁ : it₁ with
              | none => exact Or.inl (hty.trans hit₁)
              | some vt =>
                right
                rw [hty, hit₁]
                exact (ih3 vt hit₁).symm
          · exact ih4 o' ho' hev'
      cases hty : o.instanceType with
      | none =>
        rw [hty] at h
        simp only [except_pure, except_bind_ok] at h
        exact key it (Or.inl hty) (fun t₀ ht => ht) h
      | some vt =>
        rw [hty] at h
        cases it with
        | none =>
          simp only [except_pure, except_bind_ok] at h
          exact key (some vt) (Or.inr hty) (fun t₀ ht => by simp at ht) h
        | some t =>
          simp only [except_pure, except_bind_ok, except_bind_error] at h
          by_cases hteq : t = vt
          · rw [if_pos hteq] at h
            subst hteq
            exact key (some t) (Or.inr hty)
              (fun t₀ ht => by injection ht with ht; rw [ht]) h
          · rw [if_neg hteq] at h
            simp at h

/-- Conflict specification of `hoist_subschema_enum_values`: an enum-bearing
variant whose declared type differs from the already-established root type
makes the pass abort. -/
theorem hoist_enum_values_conflict : ∀ (l : SchemaList) (ce : Option (List JsonValue))
    (t₀ : SingleOrVec InstanceType) (o : SchemaObject) (vt : SingleOrVec InstanceType),
    Schema.obj o ∈ l.toList → o.enumValues.isSome = true → o.instanceType = some vt → vt ≠ t₀ →
    ∃ e, hoist_subschema_enum_values l ce (some t₀) = .error e
  | .nil, ce, t₀, o, vt, hmem, _, _, _ => by simp at hmem
  | .cons v rest, ce, t₀, o, vt, hmem, hev, hty, hne => by
    simp only [SchemaList.toList_cons, List.mem_cons] at hmem
    rcases hmem with hmem | hmem
    · subst hmem
      obtain ⟨evs, hevs⟩ := Option.isSome_iff_exists.mp hev
      simp [hoist_subschema_enum_values, hevs, hty, Ne.symm hne]
    · cases v with
      | bool b =>
        obtain ⟨e, he⟩ := hoist_enum_values_conflict rest ce t₀ o vt hmem hev hty hne
        exact ⟨e, by simp [hoist_subschema_enum_values, he]⟩
      | obj o₁ =>
        cases hev₁ : o₁.enumValues with
        | none =>
          obtain ⟨e, he⟩ := hoist_enum_values_conflict rest ce t₀ o vt hmem hev hty hne
          exact ⟨e, by simp [hoist_subschema_enum_values, hev₁, he]⟩
        | some evs₁ =>
          cases hty₁ : o₁.instanceType with
          | none =>
            obtain ⟨e, he⟩ :=
              hoist_enum_values_conflict rest (some (ce.getD [] ++ evs₁)) t₀ o vt hmem hev hty hne
            exact ⟨e, by simp [hoist_subschema_enum_values, hev₁, hty₁, he]⟩
          | some vt₁ =>
            by_cases hteq : t₀ = vt₁
            · subst hteq
              obtain ⟨e, he⟩ :=
                hoist_enum_values_conflict rest (some (ce.getD [] ++ evs₁)) t₀ o vt hmem hev hty hne
              exact ⟨e, by simp [hoist_subschema_enum_values, hev₁, hty₁, he]⟩
            · exact ⟨"Enum variant type conflicts with the already defined instance type",
                by simp [hoist_subschema_enum_values, hev₁, hty₁, hteq]⟩

/-- C8: in the plain-enum hoisting pass over a remaining `one_of`, every
enum-bearing variant is removed, its enum values concatenated onto the root
enum list in variant order and its declared type merged into (and equal to)
the root type — a declared type differing from the established root type is a
hard error — while every variant without enum values is retained in the list
unchanged. -/
theorem c8_hoist_subschema_enum_values (l : SchemaList) (ce : Option (List JsonValue))
    (it : Option (SingleOrVec InstanceType)) :
    (∀ l' ce' it', hoist_subschema_enum_values l ce it = .ok (l', ce', it') →
       l' = keptVariants l ∧
       ce' = (if l.toList.any isEnumVariant then some (ce.getD [] ++ hoistedEnumValues l)
              else ce) ∧
       (∀ t₀, it = some t₀ → it' = some t₀) ∧
       (∀ o : SchemaObject, Schema.obj o ∈ l.toList → o.enumValues.isSome = true →
          o.instanceType = Option.none ∨ o.instanceType = it')) ∧
    (∀ t₀ o vt, it = some t₀ → Schema.obj o ∈ l.toList → o.enumValues.isSome = true →
       o.instanceType = some vt → vt ≠ t₀ →
       ∃ e, hoist_subschema_enum_values l ce it = .error e) :=
  ⟨fun l' ce' it' h => hoist_enum_values_ok_spec l ce it l' ce' it' h,
   fun t₀ o vt hit hmem hev hty hne => hit ▸ hoist_enum_values_conflict l ce t₀ o vt hmem hev hty hne⟩

/-- C8 witness: a `oneOf` leaving one non-enum variant behind and hoisting
`["C","D"]` with type `string`. -/
theorem c8_witness :
    SchemaList.cons (Schema.bool true) .nil = keptVariants c8list ∧
    some ([] ++ hoistedEnumValues c8list) =
      (if c8list.toList.any isEnumVariant then
        some ((Option.none).getD [] ++ hoistedEnumValues c8list) else Option.none) := by
  have h := (c8_hoist_subschema_enum_values c8list Option.none Option.none).1
    (.cons (.bool true) .nil) (some [.str "C", .str "D"]) (some (.single .string)) (by decide)
  refine ⟨h.1, ?_⟩
  rw [← h.2.1]
  decide

/-! ## Claim C2 -/

/-- Monotonicity of the property move: entries already in the common map keep
their value (a differing incoming entry would abort instead). -/
theorem move_variant_properties_mono : ∀ (props : PropMap) (co co' : ObjectValidation),
    move_variant_properties props co = .ok co' →
    ∀ name sch, co.properties.lookup name = some sch → co'.properties.lookup name = some sch
  | .nil, co, co', h => by
    simp only [move_variant_properties, Except.ok.injEq] at h
    subst h
    exact fun _ _ hl => hl
  | .cons n p rest, co, co', h => by
    simp only [move_variant_properties] at h
    cases hl : co.properties.lookup n with
    | none =>
      simp only [hl] at h
      intro name sch hname
      have hne : name ≠ n := by
        intro he
        subst he
        rw [hl] at hname
        exact Option.noConfusion hname
      refine move_variant_properties_mono rest _ co' h name sch ?_
      obtain ⟨maxP, minP, req, prps, pat, ap, pn⟩ := co
      simpa [PropMap.lookup_insert_ne _ _ _ _ hne] using hname
    | some existing =>
      simp only [hl] at h
      by_cases hpe : p = existing
      · rw [if_pos hpe] at h
        exact move_variant_properties_mono rest co co' h
      · rw [if_neg hpe] at h
        exact absurd h (by simp)

/-- Every property of the moved map ends up in the common map with exactly
its schema (insertion when vacant, checked equality when occupied). -/
theorem move_variant_properties_adds : ∀ (props : PropMap) (co co' : ObjectValidation),
    move_variant_properties props co = .ok co' →
    ∀ name sch, props.lookup name = some sch → co'.properties.lookup name = some sch
  | .nil, _, _, _ => by
    intro name sch hname
    simp [PropMap.lookup] at hname
  | .cons n p rest, co, co', h => by
    simp only [move_variant_properties] at h
    intro name sch hname
    by_cases hnn : n = name
    · subst hnn
      rw [PropMap.lookup, if_pos rfl] at hname
      injection hname with hname
      subst hname
      cases hl : co.properties.lookup n with
      | none =>
        simp only [hl] at h
        refine move_variant_properties_mono rest _ co' h n p ?_
        obtain ⟨maxP, minP, req, prps, pat, ap, pn⟩ := co
        simp [PropMap.lookup_insert_self]
      | some existing =>
        simp only [hl] at h
        by_cases hpe : p = existing
        · rw [if_pos hpe] at h
          subst hpe
          exact move_variant_properties_mono rest co co' h n p hl
        · rw [if_neg hpe] at h
          exact absurd h (by simp)
    · rw [PropMap.lookup, if_neg hnn] at hname
      cases hl : co.properties.lookup n with
      | none =>
        simp only [hl] at h
        exact move_variant_properties_adds rest _ co' h name sch hname
      | some existing =>
        simp only [hl] at h
        by_cases hpe : p = existing
        · rw [if_pos hpe] at h
          exact move_variant_properties_adds rest co co' h name sch hname
        · rw [if_neg hpe] at h
          exact absurd h (by simp)

/-- The move introduces no properties beyond the common map and the moved
map. -/
theorem move_variant_properties_none : ∀ (props : PropMap) (co co' : ObjectValidation),
    move_variant_properties props co = .ok co' →
    ∀ name, co.properties.lookup name = Option.none → props.lookup name = Option.none →
    co'.properties.lookup name = Option.none
  | .nil, co, co', h => by
    simp only [move_variant_properties, Except.ok.injEq] at h
    subst h
    exact fun _ hl _ => hl
  | .cons n p rest, co, co', h => by
    simp only [move_variant_properties] at h
    intro name hco hprops
    have hnn : ¬ n = name := by
      intro he
      rw [PropMap.lookup, if_pos he] at hprops
      exact Option.noConfusion hprops
    rw [PropMap.lookup, if_neg hnn] at hprops
    cases hl : co.properties.lookup n with
    | none =>
      simp only [hl] at h
      refine move_variant_properties_none rest _ co' h name ?_ hprops
      obtain ⟨maxP, minP, req, prps, pat, ap, pn⟩ := co
      simpa [PropMap.lookup_insert_ne _ _ _ _ (fun he => hnn he.symm)] using hco
    | some existing =>
      simp only [hl] at h
      by_cases hpe : p = existing
      · rw [if_pos hpe] at h
        exact move_variant_properties_none rest co co' h name hco hprops
      · rw [if_neg hpe] at h
        exact absurd h (by simp)

/-- Shape of a successful variant step on an object-shaped variant: the
common map is materialized and receives the relocated properties, and the
variant keeps an (emptied) object validation. -/
theorem hoist_properties_variant_ok_shape (o : SchemaObject) (vo : ObjectValidation)
    (co : Option ObjectValidation) (it : Option (SingleOrVec InstanceType))
    (ho : o.object = some vo) :
    ∀ v' co' it', hoist_properties_variant (.obj o) co it = .ok (v', co', it') →
    ∃ cv', co' = some cv' ∧
      move_variant_properties (relocate_variant_description o.metadata vo).2.properties
        (co.getD ObjectValidation.default) = .ok cv' ∧
      (∃ o' vo', v' = Schema.obj o' ∧ o'.object = some vo' ∧ vo'.properties = .nil) := by
  intro v' co' it' h
  simp only [hoist_properties_variant, ho] at h
  cases hmv : move_variant_properties (relocate_variant_description o.metadata vo).2.properties
      (co.getD ObjectValidation.default) with
  | error e => rw [hmv] at h; simp at h
  | ok cv =>
    rw [hmv] at h
    cases hmm : merge_metadata it o.instanceType with
    | error e => rw [hmm] at h; simp at h
    | ok it₁ =>
      rw [hmm] at h
      simp only [except_bind_ok, Except.ok.injEq, Prod.mk.injEq] at h
      obtain ⟨rfl, rfl, rfl⟩ := h
      refine ⟨cv, rfl, rfl, ?_⟩
      refine ⟨_, ((relocate_variant_description o.metadata vo).2.setProperties
          PropMap.nil).setAdditionalProperties Option.none, rfl, ?_, ?_⟩
      · obtain ⟨md₀, it₀, fm₀, ev₀, ss₀, arr₀, ov₀, ext₀, oth₀⟩ := o
        simp
      · obtain ⟨maxP, minP, req, prps, pat, ap, pn⟩ :=
          (relocate_variant_description o.metadata vo).2
        simp

/-- Success specification of the pipeline's property-hoisting pass on
object-shaped variants: every variant's (relocated) properties are moved into
the common object validation — existing entries preserved, every moved entry
present with exactly its schema, no other entries — and no variant retains a
property. -/
theorem hoist_subschema_properties_ok_spec : ∀ (l : SchemaList) (co : Option ObjectValidation)
    (it : Option (SingleOrVec InstanceType)) (l' : SchemaList) (co' : Option ObjectValidation)
    (it' : Option (SingleOrVec InstanceType)),
    (∀ v ∈ l.toList, ∃ o vo, v = Schema.obj o ∧ o.object = some vo) →
    hoist_subschema_properties l co it = .ok (l', co', it') →
    (∀ v' ∈ l'.toList, ∃ o' vo', v' = Schema.obj o' ∧ o'.object = some vo' ∧
       vo'.properties = .nil) ∧
    (∀ name sch, commonLookup co name = some sch → commonLookup co' name = some sch) ∧
    (∀ name sch, (∃ v ∈ l.toList, (variantHoistedProps v).lookup name = some sch) →
       commonLookup co' name = some sch) ∧
    (∀ name, commonLookup co name = Option.none →
       (∀ v ∈ l.toList, (variantHoistedProps v).lookup name = Option.none) →
       commonLookup co' name = Option.none)
  | .nil, co, it, l', co', it', _, h => by
    simp only [hoist_subschema_properties, Except.ok.injEq, Prod.mk.injEq] at h
    obtain ⟨rfl, rfl, rfl⟩ := h
    exact ⟨by simp, fun _ _ hl => hl, by simp, fun _ hl _ => hl⟩
  | .cons v rest, co, it, l', co', it', hobj, h => by
    obtain ⟨o, vo, rfl, ho⟩ := hobj v (by simp)
    simp only [hoist_subschema_properties] at h
    cases hv : hoist_properties_variant (.obj o) co it with
    | error e => rw [hv] at h; simp at h
    | ok r =>
      obtain ⟨v₁, co₁, it₁⟩ := r
      rw [hv] at h
      simp only [except_bind_ok] at h
      cases hrest : hoist_subschema_properties rest co₁ it₁ with
      | error e => rw [hrest] at h; simp at h
      | ok r₂ =>
        obtain ⟨l₂, co₂, it₂⟩ := r₂
        rw [hrest] at h
        simp only [except_bind_ok, Except.ok.injEq, Prod.mk.injEq] at h
        obtain ⟨rfl, rfl, rfl⟩ := h
        obtain ⟨cv, rfl, hmv, hshape⟩ :=
          hoist_properties_variant_ok_shape o vo co it ho v₁ co₁ it₁ hv
        obtain ⟨ih1, ih2, ih3, ih4⟩ :=
          hoist_subschema_properties_ok_spec rest (some cv) it₁ l₂ co₂ it₂
            (fun w hw => hobj w (by simp [hw])) hrest
        refine ⟨?_, ?_, ?_, ?_⟩
        · intro v' hv'
          simp only [SchemaList.toList_cons, List.mem_cons] at hv'
          rcases hv' with rfl | hv'
          · exact hshape
          · exact ih1 v' hv'
        · intro name sch hl
          refine ih2 name sch ?_
          cases co with
          | none => simp [commonLookup] at hl
          | some c₀ =>
            simp only [commonLookup, Option.bind_some] at hl ⊢
            exact move_variant_properties_mono _ _ _ hmv name sch hl
        · intro name sch hex
          obtain ⟨w, hw, hlook⟩ := hex
          simp only [SchemaList.toList_cons, List.mem_cons] at hw
          rcases hw with rfl | hw
          · refine ih2 name sch ?_
            simp only [commonLookup, Option.bind_some]
            refine move_variant_properties_adds _ _ _ hmv name sch ?_
            simpa [variantHoistedProps, ho] using hlook
          · exact ih3 name sch ⟨w, hw, hlook⟩
        · intro name hnone hall
          refine ih4 name ?_ (fun w hw => hall w (by simp [hw]))
          simp only [commonLookup, Option.bind_some]
          refine move_variant_properties_none _ _ _ hmv name ?_ ?_
          · cases co with
            | none => simp [ObjectValidation.default, PropMap.lookup]
            | some c₀ => simpa [commonLookup] using hnone
          · simpa [variantHoistedProps, ho] using hall (.obj o) (by simp)

/-- C2 (amended): for a union whose variants are all object-shaped, the
pipeline's property-hoisting pass moves every entry of each variant's
properties map — after the description relocation of `variantHoistedProps` —
into the parent's properties map, so on success the parent's properties are
exactly the union of its own and all variant properties (with existing
entries preserved) and no variant retains a properties entry; and whenever
two variants define the same property name with relocated schemas that are
not exactly equal, the pass aborts. -/
theorem c2_hoist_subschema_properties (l : SchemaList) (co : Option ObjectValidation)
    (it : Option (SingleOrVec InstanceType))
    (hobj : ∀ v ∈ l.toList, ∃ o vo, v = Schema.obj o ∧ o.object = some vo) :
    (∀ l' co' it', hoist_subschema_properties l co it = .ok (l', co', it') →
       (∀ v' ∈ l'.toList, ∃ o' vo', v' = Schema.obj o' ∧ o'.object = some vo' ∧
          vo'.properties = .nil) ∧
       (∀ name sch, commonLookup co name = some sch → commonLookup co' name = some sch) ∧
       (∀ name sch, (∃ v ∈ l.toList, (variantHoistedProps v).lookup name = some sch) →
          commonLookup co' name = some sch) ∧
       (∀ name, commonLookup co name = Option.none →
          (∀ v ∈ l.toList, (variantHoistedProps v).lookup name = Option.none) →
          commonLookup co' name = Option.none)) ∧
    ((∃ v₁ ∈ l.toList, ∃ v₂ ∈ l.toList, ∃ name s₁ s₂,
        (variantHoistedProps v₁).lookup name = some s₁ ∧
        (variantHoistedProps v₂).lookup name = some s₂ ∧ s₁ ≠ s₂) →
      ∃ e, hoist_subschema_properties l co it = .error e) := by
  constructor
  · exact fun l' co' it' h => hoist_subschema_properties_ok_spec l co it l' co' it' hobj h
  · rintro ⟨v₁, hv₁, v₂, hv₂, name, s₁, s₂, hl₁, hl₂, hne⟩
    cases hres : hoist_subschema_properties l co it with
    | error e => exact ⟨e, rfl⟩
    | ok r =>
      obtain ⟨l', co', it'⟩ := r
      obtain ⟨_, _, hadds, _⟩ :=
        hoist_subschema_properties_ok_spec l co it l' co' it' hobj hres
      have h₁ := hadds name s₁ ⟨v₁, hv₁, hl₁⟩
      have h₂ := hadds name s₂ ⟨v₂, hv₂, hl₂⟩
      rw [h₁] at h₂
      exact absurd (Option.some.inj h₂) hne

/-- C2 counterexample: the claim as stated is false — the two variants define
property `p` with different raw schemas (one bears its description on the
variant, the other on the property), yet the pass completes without aborting,
because the conflict check runs after the description relocation. -/
theorem c2_counterexample :
    c2o1.object = some c2vo1 ∧ c2o2.object = some c2vo2 ∧
    c2vo1.properties.lookup "p" = some strSchema ∧
    c2vo2.properties.lookup "p" = some strSchemaDesc ∧
    strSchema ≠ strSchemaDesc ∧
    (hoist_subschema_properties (.cons c2v1 (.cons c2v2 .nil))
      Option.none Option.none).isOk = true :=
  ⟨rfl, rfl, by decide, by decide, by decide, by decide⟩

/-- C2 witness: Example B's two variants hoist their properties into the
parent, which then maps `one` and `two` to the string schema, with both
variants emptied. -/
theorem c2_witness :
    commonLookup (some exBco) "one" = some strSchema ∧
    commonLookup (some exBco) "two" = some strSchema ∧
    (∀ v' ∈ (SchemaList.cons exBv1' (.cons exBv2' .nil)).toList,
       ∃ o' vo', v' = Schema.obj o' ∧ o'.object = some vo' ∧ vo'.properties = .nil) := by
  have hobj : ∀ v ∈ (SchemaList.cons exBv1 (.cons exBv2 .nil)).toList,
      ∃ o vo, v = Schema.obj o ∧ o.object = some vo := by
    intro v hv
    simp only [SchemaList.toList_cons, SchemaList.toList_nil, List.mem_cons,
      List.not_mem_nil, or_false] at hv
    rcases hv with rfl | rfl
    · exact ⟨_, _, rfl, rfl⟩
    · exact ⟨_, _, rfl, rfl⟩
  have h := (c2_hoist_subschema_properties (.cons exBv1 (.cons exBv2 .nil))
      Option.none Option.none hobj).1
    (.cons exBv1' (.cons exBv2' .nil)) (some exBco) (some (.single .object)) (by decide)
  refine ⟨?_, ?_, h.1⟩
  · exact h.2.2.1 "one" strSchema ⟨exBv1, by simp, by decide⟩
  · exact h.2.2.1 "two" strSchema ⟨exBv2, by simp, by decide⟩

/-! ## Claim C5 -/

/-- A list containing a member is not nil. -/
theorem SchemaList.ne_nil_of_mem : ∀ (l : SchemaList) (v : Schema), v ∈ l.toList → l ≠ .nil
  | .nil, v, hv => by simp at hv
  | .cons _ _, _, _ => fun h => SchemaList.noConfusion h

/-- The tagged-case assert: more or fewer than one property is a hard
error. -/
theorem tagged_variant_relocate_multi (metadata : Option Metadata) (object₁ : ObjectValidation)
    (hlen : object₁.properties.length ≠ 1) :
    tagged_variant_relocate true metadata object₁ =
      .error "Expecting only a single property defined for the tagged enum variant schema" := by
  simp [tagged_variant_relocate, hlen]

/-- The tagged-case relocation on a single `Object` property with empty
metadata. -/
theorem tagged_variant_relocate_single (metadata : Option Metadata) (object₁ : ObjectValidation)
    (k : String) (po : SchemaObject)
    (hprops : object₁.properties = .cons k (.obj po) .nil)
    (hmeta : po.metadata = Option.none) :
    tagged_variant_relocate true metadata object₁ =
      .ok (object₁.setProperties (.cons k (.obj (po.setMetadata metadata)) .nil)) := by
  have hlen : object₁.properties.length = 1 := by rw [hprops]; rfl
  have hms : po.metadata.isSome = false := by rw [hmeta]; rfl
  simp [tagged_variant_relocate, hlen, hprops, hms, PropMap.length]

/-- A variant with an object validation of more or fewer than one property
makes the tagged hoist abort. -/
theorem hoist_any_of_variant_multi_prop_error (v : SchemaObject) (vo : ObjectValidation)
    (parent : Option ObjectValidation) (ho : v.object = some vo)
    (hlen : vo.properties.length ≠ 1) :
    hoist_any_of_variant true v parent =
      .error "Expecting only a single property defined for the tagged enum variant schema" := by
  obtain ⟨md, it, fm, ev, ss, arr, ov, ext, oth⟩ := v
  cases ov with
  | none => simp at ho
  | some vo₀ =>
    simp only [SchemaObject.object_mk, OptObjectValidation.toOption_object_some, Option.some.injEq]
      at ho
    subst ho
    have hlen' : (vo₀.setAdditionalProperties Option.none).properties.length ≠ 1 := by
      simpa using hlen
    simp [hoist_any_of_variant, tagged_variant_relocate_multi _ _ hlen']

/-- Hoisting a single property map entry into the parent: on success, the
parent maps the property name to exactly that schema. -/
theorem pop_hoist_singleton (k : String) (x : SchemaObject)
    (parent : Option ObjectValidation) :
    ∀ rem parent', pop_hoist_properties (.cons k (.obj x) .nil) parent = .ok (rem, parent') →
    commonLookup parent' k = some (.obj x) := by
  intro rem parent' h
  simp only [pop_hoist_properties] at h
  cases hpn : (parent.getD ObjectValidation.default).properties.lookup k with
  | none =>
    simp only [hpn] at h
    simp only [pop_hoist_properties, Except.ok.injEq, Prod.mk.injEq] at h
    obtain ⟨rfl, rfl⟩ := h
    obtain ⟨maxP, minP, req, prps, pat, ap, pn⟩ := parent.getD ObjectValidation.default
    simp [commonLookup, PropMap.lookup_insert_self]
  | some existing =>
    simp only [hpn] at h
    by_cases hpe : existing = .obj x
    · rw [if_pos hpe] at h
      simp only [pop_hoist_properties, Except.ok.injEq, Prod.mk.injEq] at h
      obtain ⟨rfl, rfl⟩ := h
      simp [commonLookup, Option.bind, hpn, hpe]
    · rw [if_neg hpe] at h
      exact absurd h (by simp)

/-- The pop loop preserves existing parent entries. -/
theorem pop_hoist_properties_mono : ∀ (props : PropMap) (parent : Option ObjectValidation)
    (rem : PropMap) (parent' : Option ObjectValidation),
    pop_hoist_properties props parent = .ok (rem, parent') →
    ∀ name sch, commonLookup parent name = some sch → commonLookup parent' name = some sch
  | .nil, parent, rem, parent', h => by
    simp only [pop_hoist_properties, Except.ok.injEq, Prod.mk.injEq] at h
    obtain ⟨rfl, rfl⟩ := h
    exact fun _ _ hl => hl
  | .cons n (.bool b) rest, parent, rem, parent', h => by
    simp only [pop_hoist_properties, Except.ok.injEq, Prod.mk.injEq] at h
    obtain ⟨rfl, rfl⟩ := h
    exact fun _ _ hl => hl
  | .cons n (.obj pso) rest, parent, rem, parent', h => by
    intro nm sch hl
    cases parent with
    | none => simp [commonLookup, Option.bind] at hl
    | some c₀ =>
      simp only [commonLookup, Option.bind] at hl
      simp only [pop_hoist_properties, Option.getD_some] at h
      cases hpn : c₀.properties.lookup n with
      | none =>
        simp only [hpn] at h
        have hne : nm ≠ n := by
          intro he
          subst he
          rw [hpn] at hl
          exact Option.noConfusion hl
        refine pop_hoist_properties_mono rest _ rem parent' h nm sch ?_
        obtain ⟨maxP, minP, req, prps, pat, ap, pn⟩ := c₀
        simpa [commonLookup, Option.bind, PropMap.lookup_insert_ne _ _ _ _ hne] using hl
      | some existing =>
        simp only [hpn] at h
        by_cases hpe : existing = .obj pso
        · rw [if_pos hpe] at h
          exact pop_hoist_properties_mono rest _ rem parent' h nm sch
            (by simpa [commonLookup, Option.bind] using hl)
        · rw [if_neg hpe] at h
          exact absurd h (by simp)

/-- Variant processing preserves existing parent entries. -/
theorem hoist_any_of_variant_mono (pd : Bool) (v : SchemaObject)
    (parent : Option ObjectValidation) (v' : SchemaObject) (parent' : Option ObjectValidation)
    (h : hoist_any_of_variant pd v parent = .ok (v', parent')) :
    ∀ name sch, commonLookup parent name = some sch → commonLookup parent' name = some sch := by
  intro name sch hl
  obtain ⟨md, it, fm, ev, ss, arr, ov, ext, oth⟩ := v
  cases ov with
  | none =>
    simp only [hoist_any_of_variant, SchemaObject.setMetadata_mk, SchemaObject.setInstanceType_mk,
      SchemaObject.object_mk, OptObjectValidation.toOption_object_none, Except.ok.injEq,
      Prod.mk.injEq] at h
    obtain ⟨rfl, rfl⟩ := h
    exact hl
  | some vo₀ =>
    simp only [hoist_any_of_variant, SchemaObject.setMetadata_mk, SchemaObject.setInstanceType_mk,
      SchemaObject.object_mk, SchemaObject.metadata_mk, OptObjectValidation.toOption_object_some] at h
    cases hrel : tagged_variant_relocate pd md (vo₀.setAdditionalProperties Option.none) with
    | error e => rw [hrel] at h; simp at h
    | ok object₂ =>
      rw [hrel] at h
      simp only [except_bind_ok] at h
      cases hpop : pop_hoist_properties object₂.properties parent with
      | error e => rw [hpop] at h; simp at h
      | ok r =>
        obtain ⟨rem, parent₁⟩ := r
        rw [hpop] at h
        simp only [except_bind_ok, Except.ok.injEq, Prod.mk.injEq] at h
        obtain ⟨rfl, rfl⟩ := h
        exact pop_hoist_properties_mono object₂.properties parent rem _ hpop name sch hl

/-- The variant loop preserves existing parent entries. -/
theorem hoist_any_of_loop_mono : ∀ (pd : Bool) (l : SchemaList)
    (parent : Option ObjectValidation) (l' : SchemaList) (parent' : Option ObjectValidation),
    hoist_any_of_subschemas_loop pd l parent = .ok (l', parent') →
    ∀ name sch, commonLookup parent name = some sch → commonLookup parent' name = some sch
  | pd, .nil, parent, l', parent', h => by
    simp only [hoist_any_of_subschemas_loop, Except.ok.injEq, Prod.mk.injEq] at h
    obtain ⟨rfl, rfl⟩ := h
    exact fun _ _ hl => hl
  | pd, .cons (.bool b) rest, parent, l', parent', h => by
    simp [hoist_any_of_subschemas_loop] at h
  | pd, .cons (.obj o) rest, parent, l', parent', h => by
    simp only [hoist_any_of_subschemas_loop] at h
    cases hv : hoist_any_of_variant pd o parent with
    | error e => rw [hv] at h; simp at h
    | ok r =>
      obtain ⟨o', parent₁⟩ := r
      rw [hv] at h
      simp only [except_bind_ok] at h
      cases hrest : hoist_any_of_subschemas_loop pd rest parent₁ with
      | error e => rw [hrest] at h; simp at h
      | ok r₂ =>
        obtain ⟨l₂, parent₂⟩ := r₂
        rw [hrest] at h
        simp only [except_bind_ok, Except.ok.injEq, Prod.mk.injEq] at h
        obtain ⟨rfl, rfl⟩ := h
        intro name sch hl
        exact hoist_any_of_loop_mono pd rest parent₁ l₂ _ hrest name sch
          (hoist_any_of_variant_mono pd o parent o' parent₁ hv name sch hl)

/-- A tagged variant with an object validation declaring more or fewer than
one property makes the loop abort. -/
theorem hoist_any_of_loop_error : ∀ (l : SchemaList) (parent : Option ObjectValidation),
    (∃ v ∈ l.toList, ∃ o vo, v = Schema.obj o ∧ o.object = some vo ∧
      vo.properties.length ≠ 1) →
    ∃ e, hoist_any_of_subschemas_loop true l parent = .error e
  | .nil, parent, hbad => by
    obtain ⟨v, hv, _⟩ := hbad
    simp at hv
  | .cons v rest, parent, hbad => by
    obtain ⟨w, hw, o, vo, rfl, ho, hlen⟩ := hbad
    simp only [SchemaList.toList_cons, List.mem_cons] at hw
    rcases hw with rfl | hw
    · exact ⟨"Expecting only a single property defined for the tagged enum variant schema",
        by simp [hoist_any_of_subschemas_loop,
          hoist_any_of_variant_multi_prop_error o vo parent ho hlen]⟩
    · cases v with
      | bool b => exact ⟨"oneOf and anyOf variants cannot be of type boolean",
          by simp [hoist_any_of_subschemas_loop]⟩
      | obj o₁ =>
        cases hv : hoist_any_of_variant true o₁ parent with
        | error e => exact ⟨e, by simp [hoist_any_of_subschemas_loop, hv]⟩
        | ok r =>
          obtain ⟨o₁', parent₁⟩ := r
          obtain ⟨e, he⟩ := hoist_any_of_loop_error rest parent₁ ⟨.obj o, hw, o, vo, rfl, ho, hlen⟩
          exact ⟨e, by simp [hoist_any_of_subschemas_loop, hv, he]⟩

/-- On success, a tagged variant with a single `Object` property of empty
metadata ends up, with its variant metadata relocated onto it, in the final
parent map. -/
theorem hoist_any_of_loop_single : ∀ (l : SchemaList) (parent : Option ObjectValidation)
    (l' : SchemaList) (parent' : Option ObjectValidation),
    hoist_any_of_subschemas_loop true l parent = .ok (l', parent') →
    ∀ (o : SchemaObject) (vo : ObjectValidation) (k : String) (po : SchemaObject),
    Schema.obj o ∈ l.toList → o.object = some vo →
    vo.properties = .cons k (.obj po) .nil → po.metadata = Option.none →
    commonLookup parent' k = some (.obj (po.setMetadata o.metadata))
  | .nil, parent, l', parent', h => by
    intro o vo k po hmem
    simp at hmem
  | .cons (.bool b) rest, parent, l', parent', h => by
    simp [hoist_any_of_subschemas_loop] at h
  | .cons (.obj o₁) rest, parent, l', parent', h => by
    intro o vo k po hmem ho hprops hmeta
    simp only [hoist_any_of_subschemas_loop] at h
    cases hv : hoist_any_of_variant true o₁ parent with
    | error e => rw [hv] at h; simp at h
    | ok r =>
      obtain ⟨o₁', parent₁⟩ := r
      rw [hv] at h
      simp only [except_bind_ok] at h
      cases hrest : hoist_any_of_subschemas_loop true rest parent₁ with
      | error e => rw [hrest] at h; simp at h
      | ok r₂ =>
        obtain ⟨l₂, parent₂⟩ := r₂
        rw [hrest] at h
        simp only [except_bind_ok, Except.ok.injEq, Prod.mk.injEq] at h
        obtain ⟨rfl, rfl⟩ := h
        simp only [SchemaList.toList_cons, List.mem_cons] at hmem
        rcases hmem with hmem | hmem
        · have ho₁ : o = o₁ := by injection hmem
          subst ho₁
          have hstep : commonLookup parent₁ k = some (.obj (po.setMetadata o.metadata)) := by
            obtain ⟨md, it, fm, ev, ss, arr, ov, ext, oth⟩ := o
            cases ov with
            | none => simp at ho
            | some vo₀ =>
              simp only [SchemaObject.object_mk, OptObjectValidation.toOption_object_some,
                Option.some.injEq] at ho
              subst ho
              simp only [hoist_any_of_variant, SchemaObject.setMetadata_mk,
                SchemaObject.setInstanceType_mk, SchemaObject.object_mk,
                SchemaObject.metadata_mk, OptObjectValidation.toOption_object_some] at hv
              rw [tagged_variant_relocate_single md (vo₀.setAdditionalProperties Option.none)
                k po (by simpa using hprops) hmeta] at hv
              simp only [except_bind_ok] at hv
              cases hpop : pop_hoist_properties ((vo₀.setAdditionalProperties
                  Option.none).setProperties
                  (.cons k (.obj (po.setMetadata md)) .nil)).properties parent with
              | error e => rw [hpop] at hv; simp at hv
              | ok r₃ =>
                obtain ⟨rem, parent₃⟩ := r₃
                rw [hpop] at hv
                simp only [except_bind_ok, Except.ok.injEq, Prod.mk.injEq] at hv
                obtain ⟨rfl, rfl⟩ := hv
                refine pop_hoist_singleton k (po.setMetadata md) parent rem _ ?_
                simpa using hpop
          exact hoist_any_of_loop_mono true rest parent₁ l₂ _ hrest k _ hstep
        · exact hoist_any_of_loop_single rest parent₁ l₂ _ hrest o vo k po hmem ho
            hprops hmeta

/-- C5 (amended): in the tagged (`oneOf`) case of
`hoist_properties_for_any_of_subschemas` (guards not triggering), every
variant bearing an object validation must declare exactly one property —
zero or more than one properties on such a variant is a hard error — while a
variant with no object validation is skipped without error; on success, a
variant's metadata (description) is relocated onto its single property's
schema before the property is hoisted to the parent. -/
theorem c5_tagged_single_property (kube : SchemaObject) (ss : SubschemaValidation)
    (l : SchemaList)
    (hss : kube.subschemas = some ss) (hoo : ss.oneOf = some l) (hao : ss.anyOf = Option.none)
    (hguard : ¬ (l.length = 2 ∧ contains_null_marker l = true)) :
    ((∃ v ∈ l.toList, ∃ o vo, v = Schema.obj o ∧ o.object = some vo ∧
        vo.properties.length ≠ 1) →
      ∃ e, hoist_properties_for_any_of_subschemas kube = .error e) ∧
    (∀ out, hoist_properties_for_any_of_subschemas kube = .ok out →
      ∀ (o : SchemaObject) (vo : ObjectValidation) (k : String) (po : SchemaObject),
        Schema.obj o ∈ l.toList → o.object = some vo →
        vo.properties = .cons k (.obj po) .nil → po.metadata = Option.none →
        ∃ pv, out.object = some pv ∧
          pv.properties.lookup k = some (.obj (po.setMetadata o.metadata))) := by
  constructor
  · rintro ⟨v, hv, o, vo, rfl, ho, hlen⟩
    have hnil : l.isNil = false := by
      cases l with
      | nil => simp at hv
      | cons a b => rfl
    simp only [hoist_properties_for_any_of_subschemas, hss, hao, hoo, hnil,
      Bool.false_eq_true, if_false, if_neg hguard]
    unfold hoist_properties_go
    cases hchk : check_variants_not_bool l with
    | error e => exact ⟨e, by simp [hchk]⟩
    | ok u =>
      obtain ⟨e, he⟩ := hoist_any_of_loop_error l kube.object ⟨.obj o, hv, o, vo, rfl, ho, hlen⟩
      exact ⟨e, by simp [hchk, he]⟩
  · intro out hok o vo k po hmem ho hprops hmeta
    have hnil : l.isNil = false := by
      cases l with
      | nil => simp at hmem
      | cons a b => rfl
    simp only [hoist_properties_for_any_of_subschemas, hss, hao, hoo, hnil,
      Bool.false_eq_true, if_false, if_neg hguard] at hok
    unfold hoist_properties_go at hok
    cases hchk : check_variants_not_bool l with
    | error e => rw [hchk] at hok; simp at hok
    | ok u =>
      rw [hchk] at hok
      simp only [except_bind_ok] at hok
      cases hloop : hoist_any_of_subschemas_loop true l kube.object with
      | error e => rw [hloop] at hok; simp at hok
      | ok r =>
        obtain ⟨l₂, parent'⟩ := r
        rw [hloop] at hok
        simp only [except_bind_ok, Except.ok.injEq] at hok
        subst hok
        have hfin := hoist_any_of_loop_single l kube.object l₂ parent' hloop o vo k po hmem ho
          hprops hmeta
        cases parent' with
        | none => simp [commonLookup] at hfin
        | some pv =>
          refine ⟨pv, ?_, by simpa [commonLookup] using hfin⟩
          simp

/-- C5 counterexample: a `oneOf` whose only variant is `{"type":"object"}` —
a tagged variant declaring zero properties — is processed without any error,
refuting the claim that zero properties is a hard error. -/
theorem c5_counterexample :
    c5schema.subschemas = some (.mk .none (.some (.cons c5v .nil))) ∧
    c5v = Schema.obj c5o ∧
    c5o.object = Option.none ∧
    (hoist_properties_for_any_of_subschemas c5schema).isOk = true :=
  ⟨rfl, rfl, rfl, by decide⟩

/-- C5 witness: the two-property variant aborts the pass, and the
two-variant tagged union hoists both single properties with their variant
descriptions relocated onto them. -/
theorem c5_witness :
    (∃ e, hoist_properties_for_any_of_subschemas c5bad = .error e) ∧
    (∃ pv, c5out.object = some pv ∧
      pv.properties.lookup "p" =
        some (.obj (strSchemaObj.setMetadata (some ⟨some "first", none⟩)))) := by
  constructor
  · refine (c5_tagged_single_property c5bad (.mk .none (.some (.cons c5badv .nil)))
      (.cons c5badv .nil) rfl rfl rfl (by decide)).1 ?_
    exact ⟨c5badv, by simp,
      (.mk none (some (.single .object)) none none .none .none
        (.some (.mk none none [] (.cons "a" strSchema (.cons "b" strSchema .nil))
          .nil .none .none)) [] []),
      (.mk none none [] (.cons "a" strSchema (.cons "b" strSchema .nil)) .nil .none .none),
      rfl, rfl, by decide⟩
  · exact (c5_tagged_single_property c5tagged
      (.mk .none (.some (.cons c5tag1 (.cons c5tag2 .nil)))) (.cons c5tag1 (.cons c5tag2 .nil))
      rfl rfl rfl (by decide)).2 c5out (by decide) c5tag1o c5vo1 "p" strSchemaObj
      (by decide) rfl (by decide) rfl

/-! ## Claim C4 -/

/-- A node without `any_of` passes the nullable-optional hoisting pass
unchanged. -/
theorem hoist_any_of_option_enum_skip : ∀ (x : SchemaObject), anyOfAbsent x →
    hoist_any_of_option_enum x = .ok x
  | .mk md it fm ev ss arr ov ext oth, h => by
    cases ss with
    | none => rfl
    | some ssv =>
      obtain ⟨ao, oo⟩ := ssv
      cases ao with
      | none => rfl
      | some l => simp [anyOfAbsent] at h

/-- A node whose subschema slot is fully resolved has no `any_of`. -/
theorem anyOfAbsent_of_resolved (t : SchemaObject) (h : subschemasResolved t) :
    anyOfAbsent t := by
  have h' : t.subschemas = Option.none ∨ t.subschemas = some (.mk .none .none) := h
  rcases h' with h' | h'
  · simp [anyOfAbsent, h']
  · simp [anyOfAbsent, h']

/-- A resolved node is a fixed point of the `oneOf` enum-hoisting pass. -/
theorem hoist_one_of_enum_fixed : ∀ (t : SchemaObject), subschemasResolved t →
    hoist_one_of_enum t = .ok t
  | .mk md it fm ev ss arr ov ext oth, h => by
    have h' : (SchemaObject.mk md it fm ev ss arr ov ext oth).subschemas = Option.none ∨
        (SchemaObject.mk md it fm ev ss arr ov ext oth).subschemas = some (.mk .none .none) := h
    rcases h' with h' | h'
    · cases ss with
      | none => rfl
      | some v => simp at h'
    · cases ss with
      | none => simp at h'
      | some v =>
        have hv : v = .mk .none .none := by simpa using h'
        subst hv
        rfl

/-- A resolved node is a fixed point of the `one_of`/`any_of` hoisting step. -/
theorem one_of_any_of_step_fixed : ∀ (t : SchemaObject), subschemasResolved t →
    one_of_any_of_step t = .ok t
  | .mk md it fm ev ss arr ov ext oth, h => by
    have h' : (SchemaObject.mk md it fm ev ss arr ov ext oth).subschemas = Option.none ∨
        (SchemaObject.mk md it fm ev ss arr ov ext oth).subschemas = some (.mk .none .none) := h
    rcases h' with h' | h'
    · cases ss with
      | none => rfl
      | some v => simp at h'
    · cases ss with
      | none => simp at h'
      | some v =>
        have hv : v = .mk .none .none := by simpa using h'
        subst hv
        rfl

/-- After the `oneOf` enum-hoisting pass on an `any_of`-free node, the
subschema slot either is gone, or has no `any_of` and an empty-or-absent
`one_of`. -/
theorem hoist_one_of_enum_resolves : ∀ (s s₁ : SchemaObject), anyOfAbsent s →
    hoist_one_of_enum s = .ok s₁ →
    s₁.subschemas = Option.none ∨
      ∃ ss₁, s₁.subschemas = some ss₁ ∧ ss₁.anyOf = Option.none ∧
        (ss₁.oneOf = Option.none ∨ ss₁.oneOf = some .nil)
  | .mk md it fm ev ss arr ov ext oth, s₁, h, hok => by
    cases ss with
    | none =>
      have h' : Except.ok (SchemaObject.mk md it fm ev .none arr ov ext oth) =
          Except.ok s₁ := hok
      injection h' with h'
      subst h'
      exact Or.inl rfl
    | some ssv =>
      obtain ⟨ao, oo⟩ := ssv
      have hao : ao.toOption = Option.none := h
      cases ao with
      | some l => simp at hao
      | none =>
        cases oo with
        | none =>
          have h' : Except.ok (SchemaObject.mk md it fm ev (.some (.mk .none .none))
              arr ov ext oth) = Except.ok s₁ := hok
          injection h' with h'
          subst h'
          exact Or.inr ⟨.mk .none .none, rfl, rfl, Or.inl rfl⟩
        | some l =>
          cases l with
          | nil =>
            have h' : Except.ok (SchemaObject.mk md it fm ev (.some (.mk .none (.some .nil)))
                arr ov ext oth) = Except.ok s₁ := hok
            injection h' with h'
            subst h'
            exact Or.inr ⟨.mk .none (.some .nil), rfl, rfl, Or.inr rfl⟩
          | cons v rest =>
            simp only [hoist_one_of_enum, SchemaObject.subschemas_mk,
              OptSubschemas.toOption_sub_some, SubschemaValidation.oneOf_mk,
              OptSchemaList.toOption_list_some] at hok
            cases hv : variantInstanceType v with
            | error e => rw [hv] at hok; simp at hok
            | ok ht =>
              rw [hv] at hok
              simp only [except_bind_ok] at hok
              cases hc : checkVariantTypes ht rest with
              | error e => rw [hc] at hok; simp at hok
              | ok u =>
                rw [hc] at hok
                simp only [except_bind_ok] at hok
                cases he : oneOfEnumConsts (.cons v rest) with
                | error e => rw [he] at hok; simp at hok
                | ok evs =>
                  rw [he] at hok
                  simp only [except_bind_ok, Except.ok.injEq] at hok
                  subst hok
                  refine Or.inr ⟨.mk .none .none, ?_, rfl, Or.inl rfl⟩
                  simp

/-- If a node enters the `one_of`/`any_of` hoisting step with no `any_of`
and an empty-or-absent `one_of`, a success leaves the slot fully resolved. -/
theorem one_of_any_of_step_resolves : ∀ (x y : SchemaObject),
    (x.subschemas = Option.none ∨
      ∃ ss₀, x.subschemas = some ss₀ ∧ ss₀.anyOf = Option.none ∧
        (ss₀.oneOf = Option.none ∨ ss₀.oneOf = some .nil)) →
    one_of_any_of_step x = .ok y → subschemasResolved y
  | .mk md it fm ev ss arr ov ext oth, y, hsh, hok => by
    cases ss with
    | none =>
      have h' : Except.ok (SchemaObject.mk md it fm ev .none arr ov ext oth) =
          Except.ok y := hok
      injection h' with h'
      subst h'
      exact Or.inl rfl
    | some ssv =>
      obtain ⟨ao, oo⟩ := ssv
      rcases hsh with hsh | ⟨ss₀, hss₀, hao, hoo⟩
      · simp at hsh
      · have hss' : SubschemaValidation.mk ao oo = ss₀ := by simpa using hss₀
        subst hss'
        cases ao with
        | some l => simp at hao
        | none =>
          rcases hoo with hoo | hoo
          · cases oo with
            | some l => simp at hoo
            | none =>
              have h' : Except.ok (SchemaObject.mk md it fm ev (.some (.mk .none .none))
                  arr ov ext oth) = Except.ok y := hok
              injection h' with h'
              subst h'
              exact Or.inr rfl
          · cases oo with
            | none => simp at hoo
            | some l =>
              have hl : l = .nil := by simpa using hoo
              subst hl
              cases ov with
              | none =>
                have h' : Except.ok (SchemaObject.mk md it fm ev (.some (.mk .none .none))
                    arr .none ext oth) = Except.ok y := hok
                injection h' with h'
                subst h'
                exact Or.inr rfl
              | some ovv =>
                have h' : Except.ok (SchemaObject.mk md it fm ev (.some (.mk .none .none))
                    arr (.some ovv) ext oth) = Except.ok y := hok
                injection h' with h'
                subst h'
                exact Or.inr rfl

/-- The map-shape fixup does not touch the subschema slot. -/
theorem map_shape_fixup_subschemas : ∀ (x : SchemaObject),
    (map_shape_fixup x).subschemas = x.subschemas
  | .mk md it fm ev ss arr ov ext oth => by
    cases ov with
    | none => rfl
    | some ovv =>
      obtain ⟨maxP, minP, req, props, pat, ap, pn⟩ := ovv
      by_cases hc : props.isNil = false ∧ ap.toOption = some (Schema.bool true)
      · simp [map_shape_fixup, hc]
      · simp [map_shape_fixup, hc]

/-- The unique-items fixup does not touch the subschema slot. -/
theorem unique_items_fixup_subschemas : ∀ (x : SchemaObject),
    (unique_items_fixup x).subschemas = x.subschemas
  | .mk md it fm ev ss arr ov ext oth => by
    cases arr with
    | none => rfl
    | some av => rfl

/-- The map-shape fixup is idempotent. -/
theorem map_shape_fixup_idem : ∀ (x : SchemaObject),
    map_shape_fixup (map_shape_fixup x) = map_shape_fixup x
  | .mk md it fm ev ss arr ov ext oth => by
    cases ov with
    | none => rfl
    | some ovv =>
      obtain ⟨maxP, minP, req, props, pat, ap, pn⟩ := ovv
      by_cases hc : props.isNil = false ∧ ap.toOption = some (Schema.bool true)
      · simp [map_shape_fixup, hc]
      · simp [map_shape_fixup, hc]

/-- The unique-items fixup is idempotent. -/
theorem unique_items_fixup_idem : ∀ (x : SchemaObject),
    unique_items_fixup (unique_items_fixup x) = unique_items_fixup x
  | .mk md it fm ev ss arr ov ext oth => by
    cases arr with
    | none => rfl
    | some av =>
      obtain ⟨items, addItems, maxI, minI, ui, cont⟩ := av
      rfl

/-- The two final fixups commute. -/
theorem map_unique_fixup_comm : ∀ (x : SchemaObject),
    map_shape_fixup (unique_items_fixup x) = unique_items_fixup (map_shape_fixup x)
  | .mk md it fm ev ss arr ov ext oth => by
    cases arr with
    | none =>
      cases ov with
      | none => rfl
      | some ovv =>
        obtain ⟨maxP, minP, req, props, pat, ap, pn⟩ := ovv
        by_cases hc : props.isNil = false ∧ ap.toOption = some (Schema.bool true)
        · simp [map_shape_fixup, unique_items_fixup, hc]
        · simp [map_shape_fixup, unique_items_fixup, hc]
    | some av =>
      obtain ⟨items, addItems, maxI, minI, ui, cont⟩ := av
      cases ov with
      | none => rfl
      | some ovv =>
        obtain ⟨maxP, minP, req, props, pat, ap, pn⟩ := ovv
        by_cases hc : props.isNil = false ∧ ap.toOption = some (Schema.bool true)
        · simp [map_shape_fixup, unique_items_fixup, hc]
        · simp [map_shape_fixup, unique_items_fixup, hc]

/-- C4 (amended): the pipeline is not idempotent in general
(`c4_counterexample` exhibits an `any_of` document where a second run
changes the output), but it is idempotent away from `any_of`: whenever the
per-node pipeline succeeds on a node with no `any_of` in its subschema
slot, its output is a fixed point of the per-node pipeline. -/
theorem c4_transform_node_idempotent (s t : SchemaObject)
    (h : anyOfAbsent s) (hok : transform_node s = .ok t) :
    transform_node t = .ok t := by
  simp only [transform_node] at hok
  cases h1 : hoist_one_of_enum s with
  | error e => rw [h1] at hok; simp at hok
  | ok s₁ =>
    rw [h1] at hok
    simp only [except_bind_ok] at hok
    have hres₁ := hoist_one_of_enum_resolves s s₁ h h1
    have habs₁ : anyOfAbsent s₁ := by
      rcases hres₁ with hr | ⟨ss₁, hss₁, hao₁, hoo₁⟩
      · simp [anyOfAbsent, hr]
      · simp [anyOfAbsent, hss₁, hao₁]
    rw [hoist_any_of_option_enum_skip s₁ habs₁] at hok
    simp only [except_bind_ok] at hok
    cases h3 : one_of_any_of_step s₁ with
    | error e => rw [h3] at hok; simp at hok
    | ok s₃ =>
      rw [h3] at hok
      simp only [except_bind_ok, Except.ok.injEq] at hok
      subst hok
      have hres₃ : subschemasResolved s₃ := one_of_any_of_step_resolves s₁ s₃ hres₁ h3
      have hrest : subschemasResolved (unique_items_fixup (map_shape_fixup s₃)) := by
        have hp₁ := map_shape_fixup_subschemas s₃
        have hp₂ := unique_items_fixup_subschemas (map_shape_fixup s₃)
        have hres₃' : s₃.subschemas = Option.none ∨
            s₃.subschemas = some (.mk .none .none) := hres₃
        rcases hres₃' with hr | hr
        · exact Or.inl (by rw [hp₂, hp₁, hr])
        · exact Or.inr (by rw [hp₂, hp₁, hr])
      simp only [transform_node]
      rw [hoist_one_of_enum_fixed _ hrest]
      simp only [except_bind_ok]
      rw [hoist_any_of_option_enum_skip _ (anyOfAbsent_of_resolved _ hrest)]
      simp only [except_bind_ok]
      rw [one_of_any_of_step_fixed _ hrest]
      simp only [except_bind_ok, Except.ok.injEq]
      rw [map_unique_fixup_comm, map_shape_fixup_idem, unique_items_fixup_idem]

/-- C4 counterexample: on this two-entry `any_of` document the full rewrite
pipeline is not idempotent — the first run empties one variant into a shape
that the second run recognizes as the serialized null marker and hoists. -/
theorem c4_counterexample :
    (transform_schema c4doc >>= transform_schema) ≠ transform_schema c4doc := by decide

/-- C4 witness: the amended idempotence theorem at the doc-commented enum
node, whose `any_of` is absent. -/
theorem c4_witness : transform_node exAout = .ok exAout :=
  c4_transform_node_idempotent exA exAout rfl (by decide)

end KubeSchema
